import Mathlib

/-!
Verification of the equality/value predictor in `vp.h`.

The C++ classes are embedded shallowly:
* machine integers (`unsigned`, `size_t`, `uint64_t`) become `Nat` with explicit
  `% 2 ^ w` where the width matters;
* `std::bitset<MAX_HIST>` becomes a `Nat` kept below `2 ^ MAX_HIST` (bit `i` of the
  number is bit `i` of the bitset, shifts truncate at `MAX_HIST` bits exactly as the
  C++ bitset does);
* `std::vector` / `std::deque` become `List` (head of the list = front of the deque);
* `std::unordered_map<PC, Value>` becomes `Nat → Option Nat`;
* code that can throw or fail an `assert` returns `Except String _`;
* the `rand()` stream consumed by `onValueCommit` is passed in as a list, one
  element per `rand()` call, in call order.
-/

/-- `constexpr size_t MAX_HIST = 200;` -/
def MAX_HIST : Nat := 200

/-- `constexpr size_t MAX_BRANCH_SPEC_DISTANCE = 64;` -/
def MAX_BRANCH_SPEC_DISTANCE : Nat := 64

/-- `enum Confidence { low=0, medium=1, high=2 };` -/
inductive Confidence where
  | low
  | medium
  | high
deriving DecidableEq

/-- The integer value of the `Confidence` enumerator; C++ compares the enum as an
integer (`<`, `>=`). -/
def Confidence.toNat : Confidence → Nat
  | .low => 0
  | .medium => 1
  | .high => 2

/-- `class EqualityPredictorEntry` (the spec calls its counter pair a DualCounter):
`tag`, `taken_counter` (n1) and `not_taken_counter` (n0), all unsigned. -/
structure EqualityPredictorEntry where
  tag : Nat
  taken_counter : Nat
  not_taken_counter : Nat
deriving DecidableEq

/-- `EqualityPredictorEntry(tag)` / the default constructor with `tag = 0`:
both counters start at zero. -/
def EqualityPredictorEntry.init (tag : Nat) : EqualityPredictorEntry :=
  ⟨tag, 0, 0⟩

/-- `EqualityPredictorEntry::update(bool outcome)`: asymmetric saturation at 7. -/
def EqualityPredictorEntry.update (e : EqualityPredictorEntry) (outcome : Bool) :
    EqualityPredictorEntry :=
  if outcome then
    if e.taken_counter < 7 then
      { e with taken_counter := e.taken_counter + 1 }
    else
      if e.not_taken_counter > 0 then
        { e with not_taken_counter := e.not_taken_counter - 1 }
      else e
  else
    if e.not_taken_counter < 7 then
      { e with not_taken_counter := e.not_taken_counter + 1 }
    else
      if e.taken_counter > 0 then
        { e with taken_counter := e.taken_counter - 1 }
      else e

/-- `EqualityPredictorEntry::getDirection()`: `taken_counter > not_taken_counter`. -/
def EqualityPredictorEntry.getDirection (e : EqualityPredictorEntry) : Bool :=
  decide (e.taken_counter > e.not_taken_counter)

/-- `EqualityPredictorEntry::decay()`: the second comparison uses the value of
`taken_counter` already decremented by the first statement. -/
def EqualityPredictorEntry.decay (e : EqualityPredictorEntry) : EqualityPredictorEntry :=
  let t :=
    if e.taken_counter > e.not_taken_counter then e.taken_counter - 1
    else e.taken_counter
  let n :=
    if e.not_taken_counter > t then e.not_taken_counter - 1
    else e.not_taken_counter
  { e with taken_counter := t, not_taken_counter := n }

/-- `EqualityPredictorEntry::getConfidence()`.  The C++ computes
`size_t conf = 2 - (medium + (low << 1));` in `int` arithmetic converted to
`size_t`; the conversion wraps modulo `2 ^ 64`, which is modelled exactly
(it only matters in the unreachable case where both booleans are true). -/
def EqualityPredictorEntry.getConfidence (e : EqualityPredictorEntry) : Confidence :=
  let medium : Bool :=
    (e.taken_counter == 2 * e.not_taken_counter + 1) ||
    (e.not_taken_counter == 2 * e.taken_counter + 1)
  let lowB : Bool :=
    (e.taken_counter < 2 * e.not_taken_counter + 1) &&
    (e.not_taken_counter < 2 * e.taken_counter + 1)
  let conf : Nat := (2 + 2 ^ 64 - (medium.toNat + (lowB.toNat <<< 1))) % 2 ^ 64
  if conf = 0 then Confidence.low
  else if conf = 1 then Confidence.medium
  else Confidence.high

/-- `class PathTracker`.  `folded_path` is an `unsigned int` kept below
`2 ^ (index_size + tag_size)`; `outcome_buffer` is a `std::bitset<MAX_HIST>`
modelled as a `Nat` below `2 ^ MAX_HIST`. -/
structure PathTracker where
  ghist_bits : Nat
  index_size : Nat
  tag_size : Nat
  folded_path : Nat
  outcome_buffer : Nat
deriving DecidableEq

/-- The state built by the `PathTracker` constructor (both fields zero). -/
def PathTracker.fresh (ghist_bits index_size tag_size : Nat) : PathTracker :=
  ⟨ghist_bits, index_size, tag_size, 0, 0⟩

/-- `PathTracker::PathTracker`: throws `std::invalid_argument` iff
`index_size + tag_size > 31`. -/
def PathTracker.mkChecked (ghist_bits index_size tag_size : Nat) :
    Except String PathTracker :=
  if index_size + tag_size > 31 then
    .error "index_size + tag_size must be <= 31"
  else
    .ok (PathTracker.fresh ghist_bits index_size tag_size)

/-- `PathTracker::addBranch(bool outcome)`. -/
def PathTracker.addBranch (t : PathTracker) (outcome : Bool) : PathTracker :=
  if t.ghist_bits = 0 then t
  else
    let old_outcome : Bool := t.outcome_buffer.testBit (t.ghist_bits - 1)
    let buf : Nat := ((t.outcome_buffer <<< 1) % 2 ^ MAX_HIST) ||| outcome.toNat
    let w := t.index_size + t.tag_size
    let msb := (t.folded_path >>> (w - 1)) &&& 1
    let f1 := ((t.folded_path <<< 1) &&& (1 <<< w - 1)) ||| msb
    let fold_position := t.ghist_bits % w
    let f2 := f1 ^^^ (old_outcome.toNat <<< fold_position)
    let f3 := f2 ^^^ outcome.toNat
    { t with outcome_buffer := buf, folded_path := f3 }

/-- One iteration of the loop in `PathTracker::revertBranches`. -/
def PathTracker.revertOne (t : PathTracker) : PathTracker :=
  let outcome : Bool := t.outcome_buffer.testBit 0
  let buf : Nat := t.outcome_buffer >>> 1
  let f1 := t.folded_path ^^^ outcome.toNat
  let w := t.index_size + t.tag_size
  let fold_position := t.ghist_bits % w
  let old_outcome : Bool := buf.testBit (t.ghist_bits - 1)
  let f2 := f1 ^^^ (old_outcome.toNat <<< fold_position)
  let lsb := f2 &&& 1
  let f3 := (f2 >>> 1) ||| (lsb <<< (w - 1))
  { t with outcome_buffer := buf, folded_path := f3 }

/-- `PathTracker::revertBranches(size_t num)`: early return when `ghist_bits == 0`,
otherwise `num` iterations of the loop body. -/
def PathTracker.revertBranches (t : PathTracker) (num : Nat) : PathTracker :=
  if t.ghist_bits = 0 then t
  else PathTracker.revertOne^[num] t

/-- `PathTracker::getIndex(PC pc)`.  `combined` is an `unsigned` (32 bits), computed
from the 64-bit `pc`, hence the `% 2 ^ 32`. -/
def PathTracker.getIndex (t : PathTracker) (pc : Nat) : Nat :=
  let combined := ((pc ^^^ (pc >>> 2) ^^^ (pc >>> 5)) ^^^ t.folded_path) % 2 ^ 32
  combined &&& (1 <<< t.index_size - 1)

/-- `PathTracker::getTag(PC pc)`. -/
def PathTracker.getTag (t : PathTracker) (pc : Nat) : Nat :=
  let combined := ((pc ^^^ (pc >>> 2) ^^^ (pc >>> 5)) ^^^ t.folded_path) % 2 ^ 32
  (combined >>> t.index_size) &&& (1 <<< t.tag_size - 1)

/-- A tracker state obtained by feeding `outcomes` (oldest first) to a freshly
constructed tracker through `addBranch`. -/
def PathTracker.replay (ghist_bits index_size tag_size : Nat) (outcomes : List Bool) :
    PathTracker :=
  outcomes.foldl PathTracker.addBranch (PathTracker.fresh ghist_bits index_size tag_size)

/-- `class EqualityPredictorComponent`: a `PathTracker` plus the entry table
(the C++ member is also called `components`). -/
structure EqualityPredictorComponent where
  path : PathTracker
  components : List EqualityPredictorEntry
deriving DecidableEq

/-- Fallback used to model `std::vector::operator[]`; the C++ `assert(index < size)`
is discharged by the size hypotheses of the theorems below, so this default is
never read there. -/
def emptyComponent : EqualityPredictorComponent :=
  ⟨⟨0, 0, 0, 0, 0⟩, []⟩

/-- `EqualityPredictorComponent` constructor: `size` default-constructed entries. -/
def EqualityPredictorComponent.mkChecked (size ghist_bits index_bits tag_bits : Nat) :
    Except String EqualityPredictorComponent := do
  let p ← PathTracker.mkChecked ghist_bits index_bits tag_bits
  .ok ⟨p, List.replicate size (EqualityPredictorEntry.init 0)⟩

/-- `EqualityPredictorComponent::getEntryConflict(PC pc)`: the slot at the computed
index, tag ignored (C++ asserts `index < components.size()`). -/
def EqualityPredictorComponent.getEntryConflict (c : EqualityPredictorComponent)
    (pc : Nat) : EqualityPredictorEntry :=
  c.components.getD (c.path.getIndex pc) (EqualityPredictorEntry.init 0)

/-- `EqualityPredictorComponent::getEntry(PC pc)`: the slot iff its tag matches. -/
def EqualityPredictorComponent.getEntry (c : EqualityPredictorComponent) (pc : Nat) :
    Option EqualityPredictorEntry :=
  let tag := c.path.getTag pc
  let entry := c.getEntryConflict pc
  if entry.tag = tag then some entry else none

/-- Writing through the reference returned by `getEntry` / `getEntryConflict`:
replace the slot at the computed index. -/
def EqualityPredictorComponent.setEntryAt (c : EqualityPredictorComponent) (pc : Nat)
    (e : EqualityPredictorEntry) : EqualityPredictorComponent :=
  { c with components := c.components.set (c.path.getIndex pc) e }

/-- `EqualityPredictorComponent::allocate(PC pc, bool outcome)`: overwrite the slot
with a fresh entry carrying the computed tag, then `update(outcome)`. -/
def EqualityPredictorComponent.allocate (c : EqualityPredictorComponent) (pc : Nat)
    (outcome : Bool) : EqualityPredictorComponent :=
  let tag := c.path.getTag pc
  c.setEntryAt pc ((EqualityPredictorEntry.init tag).update outcome)

/-- `EqualityPredictorComponent::addBranch`. -/
def EqualityPredictorComponent.addBranch (c : EqualityPredictorComponent) (o : Bool) :
    EqualityPredictorComponent :=
  { c with path := c.path.addBranch o }

/-- `EqualityPredictorComponent::revertBranches`. -/
def EqualityPredictorComponent.revertBranches (c : EqualityPredictorComponent)
    (num : Nat) : EqualityPredictorComponent :=
  { c with path := c.path.revertBranches num }

/-- `struct ComponentConfig`. -/
structure ComponentConfig where
  size : Nat
  ghist_bits : Nat
  index_bits : Nat
  tag_bits : Nat
deriving DecidableEq

/-- `class EqualityPredictor`: the component list and the speculative branch queue
(`std::deque`, head = front). -/
structure EqualityPredictor where
  components : List EqualityPredictorComponent
  branch_queue : List Nat
deriving DecidableEq

/-- The loop of the `EqualityPredictor` constructor: build the components in
order; the first `PathTracker` constructor failure propagates. -/
def mkComponents : List ComponentConfig → Except String (List EqualityPredictorComponent)
  | [] => .ok []
  | cfg :: rest => do
      let c ← EqualityPredictorComponent.mkChecked cfg.size cfg.ghist_bits
        cfg.index_bits cfg.tag_bits
      let cs ← mkComponents rest
      .ok (c :: cs)

/-- `EqualityPredictor::EqualityPredictor(configs)`. -/
def EqualityPredictor.mkChecked (configs : List ComponentConfig) :
    Except String EqualityPredictor := do
  let comps ← mkComponents configs
  .ok ⟨comps, []⟩

/-- `true` iff the constructor did not throw. -/
def exceptOk {α : Type} : Except String α → Bool
  | .ok _ => true
  | .error _ => false

/-- `EqualityPredictor::updateOnBranch(seqNum, outcome)`: throws when the queue is
full, otherwise pushes to the back and folds the outcome into every component. -/
def EqualityPredictor.updateOnBranch (ep : EqualityPredictor) (seqNum : Nat)
    (outcome : Bool) : Except String EqualityPredictor :=
  if ep.branch_queue.length ≥ MAX_BRANCH_SPEC_DISTANCE then
    .error "Exceeded maximum speculative branch distance"
  else
    .ok ⟨ep.components.map (·.addBranch outcome), ep.branch_queue ++ [seqNum]⟩

/-- `EqualityPredictor::onBranchCommit(seqNum)`: asserts the front matches, pops it. -/
def EqualityPredictor.onBranchCommit (ep : EqualityPredictor) (seqNum : Nat) :
    Except String EqualityPredictor :=
  match ep.branch_queue with
  | q :: rest =>
      if q = seqNum then .ok { ep with branch_queue := rest }
      else .error "assert branch_queue.front() == seqNum"
  | [] => .error "assert branch_queue.front() == seqNum"

/-- The number of entries the `while` loop in `EqualityPredictor::squash` pops:
it pops from the back while the back is `≥ seqNum`. -/
def EqualityPredictor.squashCount (ep : EqualityPredictor) (seqNum : Nat) : Nat :=
  (ep.branch_queue.reverse.takeWhile (fun x => decide (x ≥ seqNum))).length

/-- `EqualityPredictor::squash(seqNum)`: pop from the back while `back >= seqNum`,
counting, then revert that many branches on every component. -/
def EqualityPredictor.squash (ep : EqualityPredictor) (seqNum : Nat) :
    EqualityPredictor :=
  let rev := ep.branch_queue.reverse
  let num_to_revert := (rev.takeWhile (fun x => decide (x ≥ seqNum))).length
  ⟨ep.components.map (·.revertBranches num_to_revert),
   (rev.dropWhile (fun x => decide (x ≥ seqNum))).reverse⟩

/-- `struct PredictionData` (entry values are snapshots of the referenced entries
at the time `getPredictingEntries` ran). -/
structure PredictionData where
  primary : Option EqualityPredictorEntry
  primary_index : Nat
  alt : Option EqualityPredictorEntry
  alt_index : Nat
deriving DecidableEq

/-- The initial `PredictionData` literal in `getPredictingEntries`. -/
def initPD : PredictionData := ⟨none, 0, none, 0⟩

/-- One iteration of the loop in `getPredictingEntries`: on a tag hit, the entry
takes over as primary if there is no primary yet or its confidence is `>=` the
running primary's confidence; the previous primary becomes alt. -/
def selectStep (pd : PredictionData) (i : Nat)
    (entryOpt : Option EqualityPredictorEntry) : PredictionData :=
  match entryOpt with
  | none => pd
  | some entry =>
      if pd.primary.isNone ||
          decide (entry.getConfidence.toNat ≥
            ((pd.primary.getD (EqualityPredictorEntry.init 0)).getConfidence).toNat) then
        ⟨some entry, i, pd.primary, pd.primary_index⟩
      else pd

/-- The loop of `getPredictingEntries`, with `i` the index of the first component
of `comps` in the full component list. -/
def selectLoop (pc : Nat) : List EqualityPredictorComponent → PredictionData → Nat →
    PredictionData
  | [], pd, _ => pd
  | c :: rest, pd, i => selectLoop pc rest (selectStep pd i (c.getEntry pc)) (i + 1)

/-- `EqualityPredictor::getPredictingEntries(PC pc)`. -/
def EqualityPredictor.getPredictingEntries (ep : EqualityPredictor) (pc : Nat) :
    PredictionData :=
  selectLoop pc ep.components initPD 0

/-- `EqualityPredictor::predict(PC pc)`. -/
def EqualityPredictor.predict (ep : EqualityPredictor) (pc : Nat) :
    Confidence × Bool :=
  let pd := ep.getPredictingEntries pc
  match pd.primary with
  | some entry => (entry.getConfidence, entry.getDirection)
  | none => (Confidence.low, false)

/-- `EqualityPredictor::predict` as a state transformer: the body of the C++
method performs no write to any member, so the outgoing state is the receiver. -/
def EqualityPredictor.predictS (ep : EqualityPredictor) (pc : Nat) :
    EqualityPredictor × (Confidence × Bool) :=
  (ep, ep.predict pc)

/-- Read the entry `components[i].getEntry(pc)` in the current component list
(`std::optional<std::reference_wrapper<...>>` dereferenced at its current value). -/
def entryAt (comps : List EqualityPredictorComponent) (i : Nat) (pc : Nat) :
    Option EqualityPredictorEntry :=
  (comps.getD i emptyComponent).getEntry pc

/-- Write entry `e` through component `i`'s slot for `pc`. -/
def setCompEntry (comps : List EqualityPredictorComponent) (i : Nat) (pc : Nat)
    (e : EqualityPredictorEntry) : List EqualityPredictorComponent :=
  comps.set i ((comps.getD i emptyComponent).setEntryAt pc e)

/-- One iteration of the per-component loop in `EqualityPredictor::onValueCommit`
(state: current component list and `longest_hitting_index`).  `pd.alt` and
`pd.primary` are C++ references into the tables, so their confidence/direction
reads are re-fetched from the current component list (`entryAt`); the `getD`
fallbacks after those re-fetches are never taken, because the walk never changes
a tag, so a component that tag-hit when `pd` was computed still tag-hits.
The `assert(i==0 || pd.alt.has_value())` is modelled as an error. -/
def commitStep (pd : PredictionData) (pc : Nat) (wasEqual : Bool)
    (comps : List EqualityPredictorComponent) (longest : Nat) (i : Nat) :
    Except String (List EqualityPredictorComponent × Nat) :=
  match entryAt comps i pc with
  | none => .ok (comps, longest)
  | some entry =>
      if i > pd.primary_index then
        .ok (setCompEntry comps i pc (entry.update wasEqual), i)
      else if i = pd.primary_index then
        if ¬ (i = 0 ∨ pd.alt.isSome) then
          .error "assert i==0 || pd.alt.has_value()"
        else
          let altNow := (entryAt comps pd.alt_index pc).getD
            (pd.alt.getD (EqualityPredictorEntry.init 0))
          if (i == 0) || (entry.getConfidence != Confidence.high) ||
              (pd.alt.isSome && decide (altNow.getConfidence.toNat < Confidence.high.toNat)) ||
              (pd.alt.isSome && (altNow.getDirection != wasEqual)) then
            .ok (setCompEntry comps i pc (entry.update wasEqual), i)
          else if (decide (i > 0)) && (entry.getConfidence == Confidence.high) &&
              ((altNow.getConfidence == Confidence.high) &&
               (altNow.getDirection == wasEqual)) then
            .ok (setCompEntry comps i pc entry.decay, i)
          else
            .ok (comps, i)
      else if pd.alt.isSome && (i == pd.alt_index) then
        let primNow := (entryAt comps pd.primary_index pc).getD
          (pd.primary.getD (EqualityPredictorEntry.init 0))
        if primNow.getConfidence != Confidence.high then
          .ok (setCompEntry comps i pc (entry.update wasEqual), i)
        else
          .ok (comps, i)
      else
        .ok (comps, i)

/-- The per-component loop of `onValueCommit`, walking the index list `js`. -/
def commitWalk (pd : PredictionData) (pc : Nat) (wasEqual : Bool)
    (comps : List EqualityPredictorComponent) (longest : Nat) :
    List Nat → Except String (List EqualityPredictorComponent × Nat)
  | [] => .ok (comps, longest)
  | j :: rest => do
      let st ← commitStep pd pc wasEqual comps longest j
      commitWalk pd pc wasEqual st.1 st.2 rest

/-- `decay()` the conflict slot of component `j` (used by the allocation scan). -/
def decayConflict (comps : List EqualityPredictorComponent) (j : Nat) (pc : Nat) :
    List EqualityPredictorComponent :=
  setCompEntry comps j pc ((comps.getD j emptyComponent).getEntryConflict pc).decay

/-- `EqualityPredictor::onValueCommit(pc, wasEqual)`.
`rands` supplies the values of the successive `rand()` calls (one per iteration
of the decay loop, in order; an exhausted stream defaults to 1, i.e. no decay).
The `assert(entry.getConfidence() == high)` in the decay loop always holds —
`r` is the first index at or after `s` whose conflict slot is not high-confidence
and the allocation at `r` touches no component below `r` — so it is not modelled
as a failure case. -/
def EqualityPredictor.onValueCommit (ep : EqualityPredictor) (pc : Nat)
    (wasEqual : Bool) (rands : List Nat) : Except String EqualityPredictor := do
  let pd := ep.getPredictingEntries pc
  let prediction : Bool :=
    pd.primary.isSome && (pd.primary.getD (EqualityPredictorEntry.init 0)).getDirection
  let st ← commitWalk pd pc wasEqual ep.components 0 (List.range ep.components.length)
  let comps1 := st.1
  let longest := st.2
  if prediction != wasEqual then
    let s := longest + 1
    let scan := (List.range' s (comps1.length - s)).find? fun j =>
      ((comps1.getD j emptyComponent).getEntryConflict pc).getConfidence != Confidence.high
    let r := match scan with
      | some r => r
      | none => comps1.length
    let comps2 := match scan with
      | some r2 => comps1.set r2 ((comps1.getD r2 emptyComponent).allocate pc wasEqual)
      | none => comps1
    let comps3 := (List.range' s (r - s)).foldl
      (fun cs j => if (rands.getD (j - s) 1) % 4 = 0 then decayConflict cs j pc else cs)
      comps2
    .ok { ep with components := comps3 }
  else
    .ok { ep with components := comps1 }

/-- `class LastCommittedValueTable`: the `std::unordered_map<PC, Value>` member. -/
def LastCommittedValueTable : Type := Nat → Option Nat

/-- The empty table. -/
def LastCommittedValueTable.empty : LastCommittedValueTable := fun _ => none

/-- `LastCommittedValueTable::hasValue(PC pc)`. -/
def LastCommittedValueTable.hasValue (t : LastCommittedValueTable) (pc : Nat) : Bool :=
  (t pc).isSome

/-- `LastCommittedValueTable::lookup(PC pc)`: the stored value, or 0 when absent. -/
def LastCommittedValueTable.lookup (t : LastCommittedValueTable) (pc : Nat) : Nat :=
  (t pc).getD 0

/-- `LastCommittedValueTable::update(PC pc, Value val)`. -/
def LastCommittedValueTable.update (t : LastCommittedValueTable) (pc val : Nat) :
    LastCommittedValueTable :=
  fun p => if p = pc then some val else t p

/-- `class ValuePredictor`: the LCVT plus the equality predictor. -/
structure ValuePredictor where
  lcvt : LastCommittedValueTable
  ep : EqualityPredictor

/-- `ValuePredictor::predict(PC pc)`. -/
def ValuePredictor.predict (vp : ValuePredictor) (pc : Nat) : Confidence × Nat :=
  let pred := vp.ep.predict pc
  if !vp.lcvt.hasValue pc || !pred.2 then (Confidence.low, 0)
  else (pred.1, vp.lcvt.lookup pc)

/-- `ValuePredictor::predict` as a state transformer: the body performs no write
to any member. -/
def ValuePredictor.predictS (vp : ValuePredictor) (pc : Nat) :
    ValuePredictor × (Confidence × Nat) :=
  (vp, vp.predict pc)

/-- `ValuePredictor::onValueCommit(pc, val)`: equality is tested against the value
stored *before* the LCVT is overwritten. -/
def ValuePredictor.onValueCommit (vp : ValuePredictor) (pc val : Nat)
    (rands : List Nat) : Except String ValuePredictor := do
  let ep' ← vp.ep.onValueCommit pc (val == vp.lcvt.lookup pc) rands
  .ok ⟨vp.lcvt.update pc val, ep'⟩

/-- The tag-hitting entries for `pc` among `comps`, paired with their component
indices (the first component of `comps` has index `i`). -/
def hitsFrom (pc : Nat) : List EqualityPredictorComponent → Nat →
    List (Nat × EqualityPredictorEntry)
  | [], _ => []
  | c :: rest, i =>
      match c.getEntry pc with
      | some e => (i, e) :: hitsFrom pc rest (i + 1)
      | none => hitsFrom pc rest (i + 1)

/-- All tag-hitting entries of the predictor for `pc`, with component indices. -/
def EqualityPredictor.hits (ep : EqualityPredictor) (pc : Nat) :
    List (Nat × EqualityPredictorEntry) :=
  hitsFrom pc ep.components 0

/-- Confidence of a hit, as the integer the C++ comparisons use. -/
def confOf (x : Nat × EqualityPredictorEntry) : Nat :=
  x.2.getConfidence.toNat

/-- The specification's selection rule, stated in its own words: the primary is
"the last (highest-index) hitting entry whose confidence is ≥ that of every
earlier hit". -/
def specPrimary (hits : List (Nat × EqualityPredictorEntry)) :
    Option (Nat × EqualityPredictorEntry) :=
  hits.reverse.find? fun x =>
    hits.all fun y => decide (y.1 < x.1 → confOf y ≤ confOf x)

/-- The specification's alt: "the entry that was primary at the moment primary was
last overwritten", i.e. the selection applied to the hits strictly before the
primary. -/
def specAlt (hits : List (Nat × EqualityPredictorEntry)) :
    Option (Nat × EqualityPredictorEntry) :=
  match specPrimary hits with
  | some p => specPrimary (hits.filter fun y => decide (y.1 < p.1))
  | none => none

/-- `selectStep` folded over a list of hits. -/
def selectFold (pd : PredictionData) : List (Nat × EqualityPredictorEntry) →
    PredictionData
  | [] => pd
  | (i, e) :: rest => selectFold (selectStep pd i (some e)) rest

/-!  Concrete states used by the counterexamples and witnesses below. -/

/-- Drive a one-component predictor (`ghist_bits = 200`, the spec's maximum,
`index_bits = 1`, `tag_bits = 0`) through 201 branches, committing each branch
except the last, so that the queue stays far below `MAX_BRANCH_SPEC_DISTANCE`
and ends as `[201]`. -/
def c1Driver : Except String EqualityPredictor := do
  let ep0 ← EqualityPredictor.mkChecked [⟨2, 200, 1, 0⟩]
  (List.range 201).foldlM
    (fun ep n => do
      let ep' ← ep.updateOnBranch (n + 1) true
      if n + 1 < 201 then ep'.onBranchCommit (n + 1) else pure ep')
    ep0

/-- The state `c1Driver` reaches: the 200-bit outcome buffer is all ones, the
1-bit folded path is 0, sequence number 201 is still speculative. -/
def c1State : EqualityPredictor :=
  ⟨[⟨⟨200, 1, 0, 0, 2 ^ 200 - 1⟩, List.replicate 2 (EqualityPredictorEntry.init 0)⟩],
   [201]⟩

/-- A tiny predictor state for the C1 witness: one component with
`ghist_bits = 1`, whose tracker replayed the two queued branches. -/
def c1WitnessEp : EqualityPredictor :=
  ⟨[⟨PathTracker.replay 1 1 0 [true, true], []⟩], [1, 2]⟩

/-- Two tagged components (`ghist_bits = 0`, `index_bits = 1`, `tag_bits = 1`),
fresh tables.  `pc = 2` has tag 1 in both components, so neither hits. -/
def c2ep0 : EqualityPredictor :=
  ⟨[⟨PathTracker.fresh 0 1 1, List.replicate 2 (EqualityPredictorEntry.init 0)⟩,
    ⟨PathTracker.fresh 0 1 1, List.replicate 2 (EqualityPredictorEntry.init 0)⟩], []⟩

/-- `c2ep0` after `onValueCommit(2, true)`: the misprediction allocated entry
`(tag 1, n1 = 1, n0 = 0)` in component 1; now only component 1 hits `pc = 2`,
so the next commit selects it as primary with no alt. -/
def c2ep1 : EqualityPredictor :=
  ⟨[⟨PathTracker.fresh 0 1 1, List.replicate 2 (EqualityPredictorEntry.init 0)⟩,
    ⟨PathTracker.fresh 0 1 1, [⟨1, 1, 0⟩, EqualityPredictorEntry.init 0]⟩], []⟩

/-- A one-component untagged predictor (always hits) for the C2 witness. -/
def c2WitnessEp : EqualityPredictor :=
  ⟨[⟨PathTracker.fresh 0 1 0, List.replicate 2 (EqualityPredictorEntry.init 0)⟩], []⟩

/-- `c2WitnessEp` after `onValueCommit(0, false)`: the base entry was updated. -/
def c2WitnessEpRes : EqualityPredictor :=
  ⟨[⟨PathTracker.fresh 0 1 0, [⟨0, 0, 1⟩, EqualityPredictorEntry.init 0]⟩], []⟩

/-- A one-component tagged predictor for the C3 witness; `pc = 2` misses. -/
def c3WitnessEp : EqualityPredictor :=
  ⟨[⟨PathTracker.fresh 0 1 1, List.replicate 2 (EqualityPredictorEntry.init 0)⟩], []⟩

/-- A value predictor with an empty LCVT over a one-component untagged
equality predictor, for the C9 witness. -/
def c9vp : ValuePredictor :=
  ⟨LastCommittedValueTable.empty,
   ⟨[⟨PathTracker.fresh 0 1 0, List.replicate 2 (EqualityPredictorEntry.init 0)⟩], []⟩⟩

/-- `c9vp` after `onValueCommit(0, 0)`: `wasEqual = (0 == lookup 0) = true`, the
base entry got `update(true)`, then the LCVT stored `0`. -/
def c9vpRes : ValuePredictor :=
  ⟨LastCommittedValueTable.update LastCommittedValueTable.empty 0 0,
   ⟨[⟨PathTracker.fresh 0 1 0, [⟨0, 1, 0⟩, EqualityPredictorEntry.init 0]⟩], []⟩⟩

/-!  ## Theorems -/

/-- **C4, counterexample.**  The state `(n1, n0) = (1, 0)` has `n1 ≠ n0` and
direction *taken*, but `decay()` moves it to `(0, 0)`, whose direction is
*not taken*: `decay` does not preserve `direction()` merely under `n1 ≠ n0`. -/
theorem C4_counterexample :
    (1 : Nat) ≠ 0 ∧
    (EqualityPredictorEntry.decay ⟨0, 1, 0⟩).getDirection ≠
      (EqualityPredictorEntry.mk 0 1 0).getDirection := by
  decide

/-- **C4, amended.**  `decay()` preserves `direction()` whenever `n1 ≠ n0` and
additionally `n1 ≠ n0 + 1`; in the remaining case `n1 = n0 + 1` the first
decrement reaches equality and the direction flips from `true` to `false`. -/
theorem decay_preserves_direction (tg n1 n0 : Nat) (hne : n1 ≠ n0)
    (hs : n1 ≠ n0 + 1) :
    (EqualityPredictorEntry.decay ⟨tg, n1, n0⟩).getDirection =
      (EqualityPredictorEntry.mk tg n1 n0).getDirection := by
  simp only [EqualityPredictorEntry.decay, EqualityPredictorEntry.getDirection]
  split_ifs with h1 h2 h2 <;> simp only [decide_eq_decide] <;> omega

/-- Witness for `decay_preserves_direction` at `(n1, n0) = (5, 2)`. -/
theorem decay_preserves_direction_witness :
    (5 : Nat) ≠ 2 ∧ (5 : Nat) ≠ 2 + 1 ∧
    (EqualityPredictorEntry.decay ⟨0, 5, 2⟩).getDirection =
      (EqualityPredictorEntry.mk 0 5 2).getDirection :=
  ⟨by decide, by decide, decay_preserves_direction 0 5 2 (by decide) (by decide)⟩

/-- **C5.**  For counters in `[0, 7]`, `getConfidence()` returns `medium` iff
`max = 2·min + 1`, `low` iff `max ≤ 2·min`, and `high` iff `max > 2·min + 1`. -/
theorem getConfidence_spec (n1 n0 : Nat) (h1 : n1 ≤ 7) (h0 : n0 ≤ 7) :
    ((EqualityPredictorEntry.mk 0 n1 n0).getConfidence = Confidence.medium ↔
      max n1 n0 = 2 * min n1 n0 + 1) ∧
    ((EqualityPredictorEntry.mk 0 n1 n0).getConfidence = Confidence.low ↔
      max n1 n0 ≤ 2 * min n1 n0) ∧
    ((EqualityPredictorEntry.mk 0 n1 n0).getConfidence = Confidence.high ↔
      2 * min n1 n0 + 1 < max n1 n0) := by
  interval_cases n1 <;> interval_cases n0 <;> decide

/-- Witness for `getConfidence_spec`: the spec's confidence table, with the row
`(7, 0) ↦ high` obtained by applying the theorem. -/
theorem getConfidence_spec_witness :
    (EqualityPredictorEntry.mk 0 0 0).getConfidence = Confidence.low ∧
    (EqualityPredictorEntry.mk 0 1 0).getConfidence = Confidence.medium ∧
    (EqualityPredictorEntry.mk 0 2 0).getConfidence = Confidence.high ∧
    (EqualityPredictorEntry.mk 0 3 2).getConfidence = Confidence.low ∧
    (EqualityPredictorEntry.mk 0 5 1).getConfidence = Confidence.high ∧
    (EqualityPredictorEntry.mk 0 5 2).getConfidence = Confidence.medium ∧
    (EqualityPredictorEntry.mk 0 7 3).getConfidence = Confidence.medium ∧
    (EqualityPredictorEntry.mk 0 7 0).getConfidence = Confidence.high :=
  ⟨by decide, by decide, by decide, by decide, by decide, by decide, by decide,
   (getConfidence_spec 7 0 (by decide) (by decide)).2.2.mpr (by decide)⟩

/-- **C6.**  `update` saturates asymmetrically (on a taken outcome it increments
`n1` below 7, otherwise decrements a positive `n0`, and symmetrically for
not-taken), and the spec's scenario holds: ten `update(true)` from a fresh
entry give `(7, 0)` with high confidence, and two further `update(false)` give
`(7, 2)`, still high confidence with direction taken. -/
theorem update_saturation :
    (∀ tg n1 n0 : Nat,
      (EqualityPredictorEntry.mk tg n1 n0).update true =
        (if n1 < 7 then EqualityPredictorEntry.mk tg (n1 + 1) n0
         else if 0 < n0 then EqualityPredictorEntry.mk tg n1 (n0 - 1)
         else EqualityPredictorEntry.mk tg n1 n0)) ∧
    (∀ tg n1 n0 : Nat,
      (EqualityPredictorEntry.mk tg n1 n0).update false =
        (if n0 < 7 then EqualityPredictorEntry.mk tg n1 (n0 + 1)
         else if 0 < n1 then EqualityPredictorEntry.mk tg (n1 - 1) n0
         else EqualityPredictorEntry.mk tg n1 n0)) ∧
    ((fun e => EqualityPredictorEntry.update e true)^[10]
        (EqualityPredictorEntry.init 0)).taken_counter = 7 ∧
    ((fun e => EqualityPredictorEntry.update e true)^[10]
        (EqualityPredictorEntry.init 0)).not_taken_counter = 0 ∧
    ((fun e => EqualityPredictorEntry.update e true)^[10]
        (EqualityPredictorEntry.init 0)).getConfidence = Confidence.high ∧
    ((fun e => EqualityPredictorEntry.update e false)^[2]
        ((fun e => EqualityPredictorEntry.update e true)^[10]
          (EqualityPredictorEntry.init 0))).taken_counter = 7 ∧
    ((fun e => EqualityPredictorEntry.update e false)^[2]
        ((fun e => EqualityPredictorEntry.update e true)^[10]
          (EqualityPredictorEntry.init 0))).not_taken_counter = 2 ∧
    ((fun e => EqualityPredictorEntry.update e false)^[2]
        ((fun e => EqualityPredictorEntry.update e true)^[10]
          (EqualityPredictorEntry.init 0))).getConfidence = Confidence.high ∧
    ((fun e => EqualityPredictorEntry.update e false)^[2]
        ((fun e => EqualityPredictorEntry.update e true)^[10]
          (EqualityPredictorEntry.init 0))).getDirection = true := by
  refine ⟨fun tg n1 n0 => rfl, fun tg n1 n0 => rfl, ?_, ?_, ?_, ?_, ?_, ?_, ?_⟩ <;> decide

/-- **C8, counterexample.**  Construction succeeds on a configuration violating
`size == 2^index_bits` (size 1 with 10 index bits) and on one violating
`ghist_bits ≤ MAX_HIST` (201 ghist bits): neither invariant is checked by the
constructors. -/
theorem C8_counterexample :
    exceptOk (EqualityPredictor.mkChecked [⟨1, 0, 10, 0⟩]) = true ∧
    (1 : Nat) ≠ 2 ^ 10 ∧
    exceptOk (EqualityPredictor.mkChecked [⟨2, 201, 1, 0⟩]) = true ∧
    ¬ (201 ≤ MAX_HIST) := by
  refine ⟨rfl, by decide, rfl, by decide⟩

/-- **C8, amended.**  Construction fails iff some component violates
`index_bits + tag_bits ≤ 31`; the constraints `size == 2^index_bits` and
`ghist_bits ≤ MAX_HIST` are not checked at construction time. -/
theorem exceptOk_bind {α β : Type} (x : Except String α) (f : α → Except String β) :
    exceptOk (x >>= f) =
      match x with
      | .ok a => exceptOk (f a)
      | .error _ => false := by
  cases x <;> rfl

theorem construction_check (configs : List ComponentConfig) :
    exceptOk (EqualityPredictor.mkChecked configs) =
      configs.all fun cfg => decide (cfg.index_bits + cfg.tag_bits ≤ 31) := by
  have main : ∀ cfgs : List ComponentConfig,
      exceptOk (mkComponents cfgs) =
        cfgs.all fun cfg => decide (cfg.index_bits + cfg.tag_bits ≤ 31) := by
    intro cfgs
    induction cfgs with
    | nil => rfl
    | cons cfg rest ih =>
        rw [List.all_cons, ← ih]
        simp only [mkComponents, EqualityPredictorComponent.mkChecked,
          PathTracker.mkChecked]
        by_cases h : cfg.index_bits + cfg.tag_bits > 31
        · rw [if_pos h, decide_eq_false (by omega)]
          simp only [exceptOk_bind, Bool.false_and]
          rfl
        · rw [if_neg h, decide_eq_true (by omega), Bool.true_and]
          simp only [exceptOk_bind]
          cases hrest : mkComponents rest <;> rfl
  simp only [EqualityPredictor.mkChecked, exceptOk_bind]
  rw [← main configs]
  cases hc : mkComponents configs <;> rfl

/-- **C10.**  `EqualityPredictor::predict` and `ValuePredictor::predict` write no
predictor state (the transcription of their bodies has no member assignment),
and re-running `predict` on the resulting state returns the same pair. -/
theorem predict_frame (ep : EqualityPredictor) (vp : ValuePredictor) (pc : Nat) :
    (ep.predictS pc).1 = ep ∧
    ((ep.predictS pc).1.predictS pc).2 = (ep.predictS pc).2 ∧
    (vp.predictS pc).1 = vp ∧
    ((vp.predictS pc).1.predictS pc).2 = (vp.predictS pc).2 :=
  ⟨rfl, rfl, rfl, rfl⟩

/-- **C2, counterexample.**  Starting from the fresh two-component tagged
predictor `c2ep0`, the first `onValueCommit(2, true)` reaches `c2ep1`, in which
only component 1 tag-hits `pc = 2`: the next `onValueCommit(2, true)` therefore
selects primary index 1 with no alt, and instead of giving the primary entry
`update(outcome)` (as the claim requires for the alt-missing case) the code
fails its assertion `i==0 || pd.alt.has_value()` — no update happens. -/
theorem C2_counterexample :
    c2ep0.onValueCommit 2 true [] = .ok c2ep1 ∧
    (c2ep1.getPredictingEntries 2).primary_index = 1 ∧
    (c2ep1.getPredictingEntries 2).primary = some ⟨1, 1, 0⟩ ∧
    (c2ep1.getPredictingEntries 2).alt = none ∧
    c2ep1.onValueCommit 2 true [] = .error "assert i==0 || pd.alt.has_value()" := by
  refine ⟨by rfl, by rfl, by rfl, by rfl, by rfl⟩

set_option maxRecDepth 8000 in
/-- **C7, counterexample.**  The state reached by 200 `addBranch(true)` calls on a
`PathTracker(ghist_bits = 1, index_size = 1, tag_size = 0)` has all 200 buffer
bits set; one more `addBranch` pushes bit 199 off the `bitset<200>`, so the
following `revertBranches(1)` does not restore `outcome_buffer`. -/
theorem C7_counterexample :
    ((PathTracker.replay 1 1 0 (List.replicate 200 true)).addBranch true
        |>.revertBranches 1).outcome_buffer ≠
      (PathTracker.replay 1 1 0 (List.replicate 200 true)).outcome_buffer := by
  decide

set_option maxRecDepth 20000 in
/-- **C1, counterexample.**  `c1Driver` reaches `c1State` using only the public
operations (201 `updateOnBranch(true)`, the first 200 committed), so `c1State`
is reachable and its queue `[201]` is ascending.  `squash(201)` empties the
queue, but the component's folded path becomes 1, while replaying the 200
surviving branch outcomes into a fresh tracker of the same configuration gives
folded path 0: after ≥ `MAX_HIST` total branches, a component with
`ghist_bits = MAX_HIST` cannot recover the expired buffer bit during the
revert. -/
theorem C1_counterexample :
    c1Driver = .ok c1State ∧
    c1State.branch_queue.Pairwise (· ≤ ·) ∧
    (c1State.squash 201).branch_queue = [] ∧
    (c1State.squash 201).components.map (fun c => c.path.folded_path) = [1] ∧
    (PathTracker.replay 200 1 0 (List.replicate 200 true)).folded_path = 0 := by
  refine ⟨by rfl, by decide, by decide, by decide, by decide⟩

/-- `addBranch` never changes the configuration fields. -/
theorem addBranch_fields (t : PathTracker) (o : Bool) :
    (t.addBranch o).ghist_bits = t.ghist_bits ∧
    (t.addBranch o).index_size = t.index_size ∧
    (t.addBranch o).tag_size = t.tag_size := by
  unfold PathTracker.addBranch
  split <;> exact ⟨rfl, rfl, rfl⟩

/-- `revertOne` never changes the configuration fields. -/
theorem revertOne_fields (t : PathTracker) :
    t.revertOne.ghist_bits = t.ghist_bits ∧
    t.revertOne.index_size = t.index_size ∧
    t.revertOne.tag_size = t.tag_size :=
  ⟨rfl, rfl, rfl⟩

/-- `revertBranches` never changes the configuration fields. -/
theorem revertBranches_fields (t : PathTracker) (num : Nat) :
    (t.revertBranches num).ghist_bits = t.ghist_bits ∧
    (t.revertBranches num).index_size = t.index_size ∧
    (t.revertBranches num).tag_size = t.tag_size := by
  unfold PathTracker.revertBranches
  split
  · exact ⟨rfl, rfl, rfl⟩
  · induction num with
    | zero => exact ⟨rfl, rfl, rfl⟩
    | succ n ih =>
        rw [Function.iterate_succ_apply']
        exact ⟨ih.1, ih.2.1, ih.2.2⟩

/-- The two mutated fields of `addBranch`, when `ghist_bits ≠ 0`. -/
theorem addBranch_def (t : PathTracker) (o : Bool) (hg : t.ghist_bits ≠ 0) :
    (t.addBranch o).outcome_buffer =
      ((t.outcome_buffer <<< 1) % 2 ^ MAX_HIST) ||| o.toNat ∧
    (t.addBranch o).folded_path =
      ((((t.folded_path <<< 1) &&& (1 <<< (t.index_size + t.tag_size) - 1)) |||
          ((t.folded_path >>> (t.index_size + t.tag_size - 1)) &&& 1)) ^^^
        ((t.outcome_buffer.testBit (t.ghist_bits - 1)).toNat <<<
          (t.ghist_bits % (t.index_size + t.tag_size)))) ^^^ o.toNat := by
  unfold PathTracker.addBranch
  rw [if_neg hg]
  exact ⟨rfl, rfl⟩

/-- Circular-left-rotating a `w`-bit value, written as the code writes it, equals
`2·(f mod 2^(w−1)) + f / 2^(w−1)`. -/
theorem rotl_eq (w f : Nat) (hw : 0 < w) (hf : f < 2 ^ w) :
    ((f <<< 1) &&& (1 <<< w - 1)) ||| ((f >>> (w - 1)) &&& 1) =
      2 * (f % 2 ^ (w - 1)) + f / 2 ^ (w - 1) := by
  have hpow : 2 ^ w = 2 ^ (w - 1) * 2 := by
    rw [← Nat.pow_succ]
    congr 1
    omega
  have hdiv : f / 2 ^ (w - 1) < 2 := by
    apply Nat.div_lt_of_lt_mul
    calc f < 2 ^ w := hf
    _ = 2 ^ (w - 1) * 2 := hpow
  have h1 : (f <<< 1) &&& (1 <<< w - 1) = 2 * (f % 2 ^ (w - 1)) := by
    rw [Nat.shiftLeft_eq, Nat.pow_one, Nat.one_shiftLeft,
      Nat.and_pow_two_sub_one_eq_mod, hpow, Nat.mul_mod_mul_right]
    ring
  have h2 : (f >>> (w - 1)) &&& 1 = f / 2 ^ (w - 1) := by
    rw [Nat.shiftRight_eq_div_pow, Nat.and_one_is_mod, Nat.mod_eq_of_lt hdiv]
  rw [h1, h2]
  have hor := Nat.mul_add_lt_is_or (i := 1) (b := f / 2 ^ (w - 1))
    (by simpa using hdiv) (f % 2 ^ (w - 1))
  simpa [Nat.pow_one] using hor.symm

/-- Circular-right-rotating the circular-left-rotation, both written as the code
writes them, is the identity on `w`-bit values. -/
theorem rotr_rotl (w f : Nat) (hw : 0 < w) (hf : f < 2 ^ w) :
    ((((f <<< 1) &&& (1 <<< w - 1)) ||| ((f >>> (w - 1)) &&& 1)) >>> 1) |||
      (((((f <<< 1) &&& (1 <<< w - 1)) ||| ((f >>> (w - 1)) &&& 1)) &&& 1) <<< (w - 1))
      = f := by
  have hdiv : f / 2 ^ (w - 1) < 2 := by
    apply Nat.div_lt_of_lt_mul
    calc f < 2 ^ w := hf
    _ = 2 ^ (w - 1) * 2 := by rw [← Nat.pow_succ]; congr 1; omega
  rw [rotl_eq w f hw hf]
  have hsh : (2 * (f % 2 ^ (w - 1)) + f / 2 ^ (w - 1)) >>> 1 = f % 2 ^ (w - 1) := by
    rw [Nat.shiftRight_eq_div_pow, Nat.pow_one, Nat.mul_add_div (by omega)]
    have : f / 2 ^ (w - 1) / 2 = 0 := Nat.div_eq_of_lt hdiv
    omega
  have hand : (2 * (f % 2 ^ (w - 1)) + f / 2 ^ (w - 1)) &&& 1 = f / 2 ^ (w - 1) := by
    rw [Nat.and_one_is_mod, Nat.mul_add_mod]
    exact Nat.mod_eq_of_lt hdiv
  rw [hsh, hand, Nat.shiftLeft_eq]
  have halt : f % 2 ^ (w - 1) < 2 ^ (w - 1) := Nat.mod_lt _ (Nat.two_pow_pos _)
  calc f % 2 ^ (w - 1) ||| f / 2 ^ (w - 1) * 2 ^ (w - 1)
      = 2 ^ (w - 1) * (f / 2 ^ (w - 1)) ||| f % 2 ^ (w - 1) := by
        rw [Nat.or_comm, Nat.mul_comm]
  _ = 2 ^ (w - 1) * (f / 2 ^ (w - 1)) + f % 2 ^ (w - 1) :=
        (Nat.mul_add_lt_is_or halt _).symm
  _ = f := Nat.div_add_mod f (2 ^ (w - 1))

/-- `addBranch` keeps `folded_path` below `2^(index_size+tag_size)` and
`outcome_buffer` below `2^MAX_HIST`. -/
theorem addBranch_inv (t : PathTracker) (o : Bool)
    (hw : 0 < t.ghist_bits → 0 < t.index_size + t.tag_size)
    (hf : t.folded_path < 2 ^ (t.index_size + t.tag_size))
    (hb : t.outcome_buffer < 2 ^ MAX_HIST) :
    (t.addBranch o).folded_path < 2 ^ (t.index_size + t.tag_size) ∧
    (t.addBranch o).outcome_buffer < 2 ^ MAX_HIST := by
  by_cases hg : t.ghist_bits = 0
  · unfold PathTracker.addBranch
    rw [if_pos hg]
    exact ⟨hf, hb⟩
  · obtain ⟨hbuf, hfold⟩ := addBranch_def t o hg
    have hw' : 0 < t.index_size + t.tag_size := hw (Nat.pos_of_ne_zero hg)
    have h1lt : (1 : Nat) < 2 ^ (t.index_size + t.tag_size) := by
      calc (1 : Nat) < 2 ^ 1 := by omega
      _ ≤ 2 ^ (t.index_size + t.tag_size) := Nat.pow_le_pow_right (by omega) hw'
    constructor
    · rw [hfold]
      apply Nat.xor_lt_two_pow
      · apply Nat.xor_lt_two_pow
        · apply Nat.or_lt_two_pow
          · rw [Nat.one_shiftLeft, Nat.and_pow_two_sub_one_eq_mod]
            exact Nat.mod_lt _ (Nat.two_pow_pos _)
          · calc (t.folded_path >>> (t.index_size + t.tag_size - 1)) &&& 1 ≤ 1 :=
                Nat.and_le_right
            _ < 2 ^ (t.index_size + t.tag_size) := h1lt
        · rw [Nat.shiftLeft_eq]
          have hp : t.ghist_bits % (t.index_size + t.tag_size) <
              t.index_size + t.tag_size := Nat.mod_lt _ hw'
          calc (t.outcome_buffer.testBit (t.ghist_bits - 1)).toNat *
                2 ^ (t.ghist_bits % (t.index_size + t.tag_size))
              ≤ 1 * 2 ^ (t.ghist_bits % (t.index_size + t.tag_size)) :=
                Nat.mul_le_mul_right _ (Bool.toNat_le _)
          _ = 2 ^ (t.ghist_bits % (t.index_size + t.tag_size)) := Nat.one_mul _
          _ < 2 ^ (t.index_size + t.tag_size) := Nat.pow_lt_pow_right (by omega) hp
      · calc (Bool.toNat o) ≤ 1 := Bool.toNat_le o
        _ < 2 ^ (t.index_size + t.tag_size) := h1lt
    · rw [hbuf]
      apply Nat.or_lt_two_pow
      · exact Nat.mod_lt _ (Nat.two_pow_pos _)
      · calc (Bool.toNat o) ≤ 1 := Bool.toNat_le o
        _ < 2 ^ MAX_HIST := by
            calc (1 : Nat) < 2 ^ 1 := by omega
            _ ≤ 2 ^ MAX_HIST := Nat.pow_le_pow_right (by omega)
                (by rw [show MAX_HIST = 200 from rfl]; omega)

/-- A replayed tracker keeps its configuration and the two width invariants. -/
theorem replay_inv (g i t : Nat) (hw : 0 < g → 0 < i + t) (h : List Bool) :
    (PathTracker.replay g i t h).ghist_bits = g ∧
    (PathTracker.replay g i t h).index_size = i ∧
    (PathTracker.replay g i t h).tag_size = t ∧
    (PathTracker.replay g i t h).folded_path < 2 ^ (i + t) ∧
    (PathTracker.replay g i t h).outcome_buffer < 2 ^ MAX_HIST := by
  suffices H : ∀ s : PathTracker, s.ghist_bits = g → s.index_size = i →
      s.tag_size = t → s.folded_path < 2 ^ (i + t) →
      s.outcome_buffer < 2 ^ MAX_HIST →
      (h.foldl PathTracker.addBranch s).ghist_bits = g ∧
      (h.foldl PathTracker.addBranch s).index_size = i ∧
      (h.foldl PathTracker.addBranch s).tag_size = t ∧
      (h.foldl PathTracker.addBranch s).folded_path < 2 ^ (i + t) ∧
      (h.foldl PathTracker.addBranch s).outcome_buffer < 2 ^ MAX_HIST by
    exact H (PathTracker.fresh g i t) rfl rfl rfl (Nat.two_pow_pos _) (Nat.two_pow_pos _)
  induction h with
  | nil => intro s h1 h2 h3 h4 h5; exact ⟨h1, h2, h3, h4, h5⟩
  | cons o rest ih =>
      intro s h1 h2 h3 h4 h5
      have hfields := addBranch_fields s o
      have hinv := addBranch_inv s o (by rw [h1, h2, h3]; exact hw)
        (by rw [h2, h3]; exact h4) h5
      exact ih (s.addBranch o) (hfields.1.trans h1) (hfields.2.1.trans h2)
        (hfields.2.2.trans h3) (by rw [← h2, ← h3]; exact hinv.1)
        hinv.2

/-- When bit `MAX_HIST − 1` of the buffer is clear (so the `bitset` left shift in
`addBranch` discards only a zero), one `revertOne` exactly inverts `addBranch`,
on the whole tracker state. -/
theorem revertOne_addBranch_exact (g i t f b : Nat) (o : Bool)
    (hg : 0 < g) (hw : 0 < i + t)
    (hf : f < 2 ^ (i + t)) (hb : b < 2 ^ MAX_HIST)
    (hbit : b.testBit (MAX_HIST - 1) = false) :
    ((PathTracker.mk g i t f b).addBranch o).revertOne = ⟨g, i, t, f, b⟩ := by
  have hg' : (PathTracker.mk g i t f b).ghist_bits ≠ 0 := by
    simpa using Nat.pos_iff_ne_zero.mp hg
  obtain ⟨hbuf, hfold⟩ := addBranch_def ⟨g, i, t, f, b⟩ o hg'
  have hfields := addBranch_fields (PathTracker.mk g i t f b) o
  -- the buffer before the shift is below 2 ^ (MAX_HIST − 1)
  have hb199 : b < 2 ^ (MAX_HIST - 1) := by
    apply Nat.lt_pow_two_of_testBit
    intro j hj
    rcases Nat.eq_or_lt_of_le hj with hj' | hj'
    · rw [← hj']; exact hbit
    · apply Nat.testBit_lt_two_pow
      calc b < 2 ^ MAX_HIST := hb
      _ ≤ 2 ^ j := Nat.pow_le_pow_right (by omega)
            (by rw [show MAX_HIST = 200 from rfl] at hj' ⊢; omega)
  -- hence the shifted buffer is not truncated: it is 2·b + o
  have hbufval : ((PathTracker.mk g i t f b).addBranch o).outcome_buffer =
      2 * b + o.toNat := by
    rw [hbuf]
    have hsh : ((PathTracker.mk g i t f b).outcome_buffer <<< 1) % 2 ^ MAX_HIST =
        2 * b := by
      show (b <<< 1) % 2 ^ MAX_HIST = 2 * b
      rw [Nat.shiftLeft_eq, Nat.pow_one]
      rw [Nat.mod_eq_of_lt]
      · ring
      · calc b * 2 < 2 ^ (MAX_HIST - 1) * 2 := by omega
        _ = 2 ^ MAX_HIST := by rw [show MAX_HIST = 200 from rfl, ← Nat.pow_succ]
    rw [hsh]
    have hor := Nat.mul_add_lt_is_or (i := 1) (b := o.toNat) (by simpa using Bool.toNat_lt o) b
    simpa [Nat.pow_one] using hor.symm
  -- reading the bits back
  have hread0 : ((PathTracker.mk g i t f b).addBranch o).outcome_buffer.testBit 0 = o := by
    rw [hbufval, Nat.testBit_zero, Nat.mul_add_mod]
    cases o <;> rfl
  have hshiftback : ((PathTracker.mk g i t f b).addBranch o).outcome_buffer >>> 1 = b := by
    rw [hbufval, Nat.shiftRight_eq_div_pow, Nat.pow_one,
      Nat.mul_add_div (by omega)]
    have : o.toNat / 2 = 0 := Nat.div_eq_of_lt (Bool.toNat_lt o)
    omega
  -- now compute revertOne on the added state
  unfold PathTracker.revertOne
  rw [hread0, hshiftback]
  simp only [hfields.1, hfields.2.1, hfields.2.2]
  rw [hfold]
  have hxor :
      (((((f <<< 1) &&& (1 <<< (i + t) - 1)) ||| ((f >>> (i + t - 1)) &&& 1)) ^^^
          ((b.testBit (g - 1)).toNat <<< (g % (i + t)))) ^^^ o.toNat) ^^^ o.toNat ^^^
        ((b.testBit (g - 1)).toNat <<< (g % (i + t))) =
      ((f <<< 1) &&& (1 <<< (i + t) - 1)) ||| ((f >>> (i + t - 1)) &&& 1) := by
    rw [Nat.xor_assoc _ o.toNat o.toNat, Nat.xor_self, Nat.xor_zero,
      Nat.xor_assoc, Nat.xor_self, Nat.xor_zero]
  rw [hxor]
  rw [rotr_rotl (i + t) f hw hf]

/-- **C7, amended.**  For a tracker state reachable by `addBranch` calls only,
`addBranch(o)` followed by `revertBranches(1)` is the identity on both
`outcome_buffer` and `folded_path` *provided* bit `MAX_HIST − 1` of the buffer
is clear beforehand (equivalently: fewer than `MAX_HIST` branches were added so
far, or the `MAX_HIST`-th most recent outcome was `false`).  Otherwise the
`bitset<MAX_HIST>` left shift discards that bit and the buffer is not restored
(see `C7_counterexample`).  `g ≤ MAX_HIST` keeps the `bitset` reads in range. -/
theorem addBranch_revert_identity (g i t : Nat) (h : List Bool) (o : Bool)
    (hw : 0 < g → 0 < i + t) (hgM : g ≤ MAX_HIST)
    (hbit : (PathTracker.replay g i t h).outcome_buffer.testBit (MAX_HIST - 1) = false) :
    ((PathTracker.replay g i t h).addBranch o).revertBranches 1 =
      PathTracker.replay g i t h := by
  obtain ⟨h1, h2, h3, h4, h5⟩ := replay_inv g i t hw h
  rcases hE : PathTracker.replay g i t h with ⟨g2, i2, t2, f2, b2⟩
  rw [hE] at h1 h2 h3 h4 h5 hbit
  have h1' : g2 = g := h1
  have h2' : i2 = i := h2
  have h3' : t2 = t := h3
  have hw2 : 0 < g2 → 0 < i2 + t2 := by rw [h1', h2', h3']; exact hw
  have h4' : f2 < 2 ^ (i2 + t2) := by rw [h2', h3']; exact h4
  have h5' : b2 < 2 ^ MAX_HIST := h5
  have hbit' : b2.testBit (MAX_HIST - 1) = false := hbit
  by_cases hg : g2 = 0
  · unfold PathTracker.addBranch
    rw [if_pos hg]
    unfold PathTracker.revertBranches
    rw [if_pos hg]
  · have hg' : 0 < g2 := Nat.pos_of_ne_zero hg
    have key := revertOne_addBranch_exact g2 i2 t2 f2 b2 o hg' (hw2 hg') h4' h5' hbit'
    have hgh : ((PathTracker.mk g2 i2 t2 f2 b2).addBranch o).ghist_bits = g2 :=
      (addBranch_fields _ o).1
    unfold PathTracker.revertBranches
    rw [if_neg (by rw [hgh]; omega), Function.iterate_one]
    exact key

/-- Witness for `addBranch_revert_identity`: one recorded branch, bit
`MAX_HIST − 1` clear, round trip restores the state. -/
theorem addBranch_revert_identity_witness :
    (PathTracker.replay 1 1 0 [true]).outcome_buffer.testBit (MAX_HIST - 1) = false ∧
    ((PathTracker.replay 1 1 0 [true]).addBranch true).revertBranches 1 =
      PathTracker.replay 1 1 0 [true] :=
  ⟨by decide, addBranch_revert_identity 1 1 0 [true] true (fun _ => by decide)
    (by decide) (by decide)⟩

/-- Bit `j` of the buffer after `addBranch`: bit 0 is the new outcome, bits
`1 ≤ j < MAX_HIST` hold the previous bit `j − 1`, and everything at or above
`MAX_HIST` is zero (the `bitset` truncates). -/
theorem addBranch_buffer_testBit (S : PathTracker) (o : Bool)
    (hg : S.ghist_bits ≠ 0) (j : Nat) :
    ((S.addBranch o).outcome_buffer).testBit j =
      if j = 0 then o
      else if j < MAX_HIST then S.outcome_buffer.testBit (j - 1)
      else false := by
  rw [(addBranch_def S o hg).1]
  rw [Nat.testBit_or, Nat.testBit_mod_two_pow, Nat.testBit_shiftLeft,
    Nat.testBit_bool_to_nat]
  by_cases h0 : j = 0
  · subst h0
    simp
  · by_cases hM : j < MAX_HIST
    · simp [h0, hM, Nat.one_le_iff_ne_zero.mpr h0]
    · simp [h0, hM]

/-- `folded_path` after one `revertOne`, written out. -/
theorem revertOne_folded (T : PathTracker) :
    T.revertOne.folded_path =
      ((((T.folded_path ^^^ (T.outcome_buffer.testBit 0).toNat) ^^^
          (((T.outcome_buffer >>> 1).testBit (T.ghist_bits - 1)).toNat <<<
            (T.ghist_bits % (T.index_size + T.tag_size)))) >>> 1) |||
        ((((T.folded_path ^^^ (T.outcome_buffer.testBit 0).toNat) ^^^
          (((T.outcome_buffer >>> 1).testBit (T.ghist_bits - 1)).toNat <<<
            (T.ghist_bits % (T.index_size + T.tag_size)))) &&& 1) <<<
          (T.index_size + T.tag_size - 1))) := rfl

/-- `outcome_buffer` after one `revertOne`. -/
theorem revertOne_buffer (T : PathTracker) :
    T.revertOne.outcome_buffer = T.outcome_buffer >>> 1 := rfl

/-- XOR cancellation in the shape produced by `addBranch` then `revertOne`. -/
theorem xor_cancel2 (X A O : Nat) : (((X ^^^ A) ^^^ O) ^^^ O) ^^^ A = X := by
  rw [Nat.xor_assoc (X ^^^ A) O O, Nat.xor_self, Nat.xor_zero, Nat.xor_assoc,
    Nat.xor_self, Nat.xor_zero]

/-- One `revertOne` inverts the last `addBranch`, given only agreement of the
buffers below a bound `B` exceeding `ghist_bits` (the bits at or above `B` may
have been zeroed by earlier truncated reverts): the folded path of `S` is
recovered exactly and the buffers agree below `B − 1`. -/
theorem revertOne_step (S T : PathTracker) (o : Bool) (B : Nat)
    (hg : 0 < S.ghist_bits) (hw : 0 < S.index_size + S.tag_size)
    (hgB : S.ghist_bits < B) (hB : B ≤ MAX_HIST)
    (hfg : T.ghist_bits = S.ghist_bits) (hfi : T.index_size = S.index_size)
    (hft : T.tag_size = S.tag_size)
    (hfold : T.folded_path = (S.addBranch o).folded_path)
    (hbuf : ∀ j, j < B → T.outcome_buffer.testBit j =
      (S.addBranch o).outcome_buffer.testBit j)
    (hSf : S.folded_path < 2 ^ (S.index_size + S.tag_size)) :
    T.revertOne.folded_path = S.folded_path ∧
    (∀ j, j < B - 1 → T.revertOne.outcome_buffer.testBit j =
      S.outcome_buffer.testBit j) := by
  have hg0 : S.ghist_bits ≠ 0 := Nat.pos_iff_ne_zero.mp hg
  have habit := addBranch_buffer_testBit S o hg0
  have hMB : MAX_HIST = 200 := rfl
  have ho : T.outcome_buffer.testBit 0 = o := by
    rw [hbuf 0 (by omega), habit 0]
    simp
  have hold : (T.outcome_buffer >>> 1).testBit (S.ghist_bits - 1) =
      S.outcome_buffer.testBit (S.ghist_bits - 1) := by
    rw [Nat.testBit_shiftRight]
    have h1g : 1 + (S.ghist_bits - 1) = S.ghist_bits := by omega
    rw [h1g, hbuf S.ghist_bits hgB, habit S.ghist_bits]
    have hgM : S.ghist_bits < MAX_HIST := by omega
    simp [hg0, hgM]
  constructor
  · rw [revertOne_folded, hfg, hfi, hft, ho, hold, hfold,
      (addBranch_def S o hg0).2, xor_cancel2]
    exact rotr_rotl (S.index_size + S.tag_size) S.folded_path hw hSf
  · intro j hj
    rw [revertOne_buffer, Nat.testBit_shiftRight, hbuf (1 + j) (by omega),
      habit (1 + j)]
    have h1j : ¬ (1 + j = 0) := by omega
    have hjM : 1 + j < MAX_HIST := by omega
    simp [h1j, hjM]

/-- `k` reverts undo the last `k` `addBranch` calls of a replayed tracker, as
long as `ghist_bits + k ≤ MAX_HIST`: the folded path is recovered exactly and
the buffers agree below `MAX_HIST − k` (bits above that may have been lost to
the `bitset` truncation and re-enter as zeros). -/
theorem revert_replay_aux (g i t : Nat) (hg : 0 < g) (hw : 0 < i + t)
    (h : List Bool) :
    ∀ k, k ≤ h.length → g + k ≤ MAX_HIST →
      (PathTracker.revertOne^[k] (PathTracker.replay g i t h)).folded_path =
        (PathTracker.replay g i t (h.take (h.length - k))).folded_path ∧
      (∀ j, j < MAX_HIST - k →
        (PathTracker.revertOne^[k]
            (PathTracker.replay g i t h)).outcome_buffer.testBit j =
          (PathTracker.replay g i t (h.take (h.length - k))).outcome_buffer.testBit j) ∧
      (PathTracker.revertOne^[k] (PathTracker.replay g i t h)).ghist_bits = g ∧
      (PathTracker.revertOne^[k] (PathTracker.replay g i t h)).index_size = i ∧
      (PathTracker.revertOne^[k] (PathTracker.replay g i t h)).tag_size = t := by
  intro k
  induction k with
  | zero =>
      intro _ _
      obtain ⟨a1, a2, a3, _, _⟩ := replay_inv g i t (fun _ => hw) h
      simp only [Function.iterate_zero, id_eq, Nat.sub_zero, List.take_length]
      exact ⟨by trivial, fun j _ => by trivial, a1, a2, a3⟩
  | succ k ih =>
      intro hk hbound
      have hMB : MAX_HIST = 200 := rfl
      obtain ⟨ihf, ihb, ihg, ihi, iht⟩ := ih (by omega) (by omega)
      have hidx : h.length - (k + 1) < h.length := by omega
      have hsplit : h.take (h.length - k) =
          h.take (h.length - (k + 1)) ++ [h[h.length - (k + 1)]] := by
        have hmk : h.length - k = (h.length - (k + 1)) + 1 := by omega
        rw [hmk, List.take_succ, List.getElem?_eq_getElem hidx]
        rfl
      set S := PathTracker.replay g i t (h.take (h.length - (k + 1))) with hS
      have hrepS := replay_inv g i t (fun _ => hw) (h.take (h.length - (k + 1)))
      have hadd : PathTracker.replay g i t (h.take (h.length - k)) =
          S.addBranch h[h.length - (k + 1)] := by
        rw [hsplit, hS]
        unfold PathTracker.replay
        rw [List.foldl_append]
        rfl
      have hstep := revertOne_step S
        (PathTracker.revertOne^[k] (PathTracker.replay g i t h))
        h[h.length - (k + 1)] (MAX_HIST - k)
        (by rw [hrepS.1]; exact hg)
        (by rw [hrepS.2.1, hrepS.2.2.1]; exact hw)
        (by rw [hrepS.1]; omega) (by omega)
        (by rw [ihg, hrepS.1]) (by rw [ihi, hrepS.2.1]) (by rw [iht, hrepS.2.2.1])
        (by rw [ihf, hadd]) (fun j hj => by rw [ihb j hj, hadd])
        (by rw [hrepS.2.1, hrepS.2.2.1]; exact hrepS.2.2.2.1)
      rw [Function.iterate_succ_apply']
      refine ⟨hstep.1, ?_, ?_, ?_, ?_⟩
      · intro j hj
        exact hstep.2 j (by omega)
      · exact (revertOne_fields _).1.trans ihg
      · exact (revertOne_fields _).2.1.trans ihi
      · exact (revertOne_fields _).2.2.trans iht

/-- `addBranch` is the identity for a tracker with no history bits. -/
theorem addBranch_ghist_zero (t : PathTracker) (o : Bool) (h : t.ghist_bits = 0) :
    t.addBranch o = t := by
  unfold PathTracker.addBranch
  rw [if_pos h]

/-- A replay with `ghist_bits = 0` stays at the fresh state. -/
theorem replay_ghist_zero (i t : Nat) (l : List Bool) :
    PathTracker.replay 0 i t l = PathTracker.fresh 0 i t := by
  suffices H : ∀ s : PathTracker, s.ghist_bits = 0 →
      l.foldl PathTracker.addBranch s = s from
    H (PathTracker.fresh 0 i t) rfl
  induction l with
  | nil => intro s _; rfl
  | cons o rest ih =>
      intro s hs
      simp only [List.foldl_cons, addBranch_ghist_zero s o hs]
      exact ih s hs

/-- `takeWhile` never yields more elements than the list has. -/
theorem takeWhile_length_le {α : Type} (p : α → Bool) (l : List α) :
    (l.takeWhile p).length ≤ l.length := by
  induction l with
  | nil => simp [List.takeWhile]
  | cons a tl ih =>
      rw [List.takeWhile_cons]
      by_cases h : p a = true
      · rw [if_pos h]
        simpa using ih
      · rw [if_neg h]
        simp

/-- After dropping a while-prefix of elements `≥ s` from a descending list,
everything left is `< s`. -/
theorem dropWhile_desc_lt (s : Nat) : ∀ r : List Nat,
    r.Pairwise (fun a b => b ≤ a) →
    ∀ x ∈ r.dropWhile (fun y => decide (y ≥ s)), x < s := by
  intro r
  induction r with
  | nil =>
      intro _ x hx
      simp [List.dropWhile] at hx
  | cons a tl ih =>
      intro hp x hx
      rw [List.dropWhile_cons] at hx
      by_cases ha : a ≥ s
      · rw [if_pos (decide_eq_true ha)] at hx
        exact ih (List.pairwise_cons.mp hp).2 x hx
      · rw [if_neg (by simpa using ha)] at hx
        rcases List.mem_cons.mp hx with rfl | hxtl
        · omega
        · have := (List.pairwise_cons.mp hp).1 x hxtl
          omega

/-- **C1, amended.**  Consider a reachable predictor state: every component's
tracker is the replay of the full branch-outcome history `h`, and the branch
queue holds (at most) the sequence numbers of the most recent outcomes, in
ascending order.  If additionally every component satisfies
`ghist_bits + branch_queue.length ≤ MAX_HIST` (the claim fails without this
bound — see `C1_counterexample`), then after `squash(s)` no sequence number
`≥ s` remains in the queue and every component's `folded_path` equals the one
obtained by replaying only the surviving (non-squashed) outcome history into a
fresh tracker of the same configuration. -/
theorem squash_replay_folded (ep : EqualityPredictor) (h : List Bool) (s : Nat)
    (hrep : ∀ c ∈ ep.components, c.path =
      PathTracker.replay c.path.ghist_bits c.path.index_size c.path.tag_size h)
    (hasc : ep.branch_queue.Pairwise (· ≤ ·))
    (hlen : ep.branch_queue.length ≤ h.length)
    (hcfg : ∀ c ∈ ep.components,
      (0 < c.path.ghist_bits → 0 < c.path.index_size + c.path.tag_size) ∧
      c.path.ghist_bits + ep.branch_queue.length ≤ MAX_HIST) :
    (∀ x ∈ (ep.squash s).branch_queue, x < s) ∧
    (∀ c ∈ (ep.squash s).components, c.path.folded_path =
      (PathTracker.replay c.path.ghist_bits c.path.index_size c.path.tag_size
        (h.take (h.length - ep.squashCount s))).folded_path) := by
  have hkq : ep.squashCount s ≤ ep.branch_queue.length := by
    have := takeWhile_length_le (fun y => decide (y ≥ s)) ep.branch_queue.reverse
    simpa [EqualityPredictor.squashCount] using this
  constructor
  · intro x hx
    have hx' : x ∈ ep.branch_queue.reverse.dropWhile (fun y => decide (y ≥ s)) := by
      simpa [EqualityPredictor.squash] using hx
    exact dropWhile_desc_lt s ep.branch_queue.reverse
      (List.pairwise_reverse.mpr hasc) x hx'
  · intro c hc
    simp only [EqualityPredictor.squash, List.mem_map] at hc
    obtain ⟨c0, hc0, rfl⟩ := hc
    have hr := hrep c0 hc0
    have hb := hcfg c0 hc0
    simp only [EqualityPredictorComponent.revertBranches]
    rw [show (List.takeWhile (fun x => decide (x ≥ s)) ep.branch_queue.reverse).length
      = ep.squashCount s from rfl]
    rw [(revertBranches_fields c0.path (ep.squashCount s)).1,
      (revertBranches_fields c0.path (ep.squashCount s)).2.1,
      (revertBranches_fields c0.path (ep.squashCount s)).2.2]
    set g := c0.path.ghist_bits with hgdef
    set i := c0.path.index_size with hidef
    set t := c0.path.tag_size with htdef
    rw [hr]
    by_cases hg : g = 0
    · rw [hg, replay_ghist_zero, replay_ghist_zero]
      unfold PathTracker.revertBranches
      rfl
    · have hg' : 0 < g := Nat.pos_of_ne_zero hg
      have hw : 0 < i + t := hb.1 hg'
      have hrfieldsH := replay_inv g i t (fun _ => hw) h
      unfold PathTracker.revertBranches
      rw [if_neg (by rw [hrfieldsH.1]; omega)]
      exact (revert_replay_aux g i t hg' hw h (ep.squashCount s)
        (by omega) (by omega)).1

/-- Witness for `squash_replay_folded`: a one-component predictor that replayed
the two queued branches; `squash(2)` must leave only sequence number 1 and
restore the folded path of a fresh replay of the first outcome. -/
theorem squash_replay_folded_witness :
    ((1 : Nat) < 2) ∧
    (((c1WitnessEp.squash 2).components.getD 0 emptyComponent).path.folded_path =
      (PathTracker.replay
        ((c1WitnessEp.squash 2).components.getD 0 emptyComponent).path.ghist_bits
        ((c1WitnessEp.squash 2).components.getD 0 emptyComponent).path.index_size
        ((c1WitnessEp.squash 2).components.getD 0 emptyComponent).path.tag_size
        ([true, true].take ([true, true].length - c1WitnessEp.squashCount 2))).folded_path) := by
  have main := squash_replay_folded c1WitnessEp [true, true] 2
    (by decide) (by decide) (by decide) (by decide)
  constructor
  · exact main.1 1 (by decide)
  · exact main.2 ((c1WitnessEp.squash 2).components.getD 0 emptyComponent) (by decide)

/-- A skipped component leaves the running selection unchanged. -/
theorem selectStep_none (pd : PredictionData) (i : Nat) :
    selectStep pd i none = pd := rfl

/-- The loop of `getPredictingEntries` equals the fold of `selectStep` over the
list of tag hits. -/
theorem selectLoop_eq_selectFold (pc : Nat) :
    ∀ (comps : List EqualityPredictorComponent) (pd : PredictionData) (i : Nat),
      selectLoop pc comps pd i = selectFold pd (hitsFrom pc comps i) := by
  intro comps
  induction comps with
  | nil => intro pd i; rfl
  | cons c rest ih =>
      intro pd i
      cases hE : c.getEntry pc with
      | none =>
          simp only [selectLoop, hitsFrom, hE]
          exact ih pd (i + 1)
      | some e =>
          simp only [selectLoop, hitsFrom, hE, selectFold]
          exact ih _ (i + 1)

/-- Characterization of the members of `hitsFrom pc comps i`: each pair records
a component index (relative to `i`) together with its tag-hitting entry. -/
theorem hitsFrom_mem (pc : Nat) :
    ∀ (comps : List EqualityPredictorComponent) (i : Nat),
      ∀ x ∈ hitsFrom pc comps i,
        i ≤ x.1 ∧ x.1 < i + comps.length ∧
        (comps.getD (x.1 - i) emptyComponent).getEntry pc = some x.2 := by
  intro comps
  induction comps with
  | nil => intro i x hx; simp [hitsFrom] at hx
  | cons c rest ih =>
      intro i x hx
      cases hE : c.getEntry pc with
      | none =>
          rw [hitsFrom, hE] at hx
          obtain ⟨ha, hb, hc2⟩ := ih (i + 1) x hx
          refine ⟨by omega, by simp; omega, ?_⟩
          have hxi : x.1 - i = (x.1 - (i + 1)) + 1 := by omega
          rw [hxi]
          simpa using hc2
      | some e =>
          rw [hitsFrom, hE] at hx
          rcases List.mem_cons.mp hx with rfl | hxtl
          · exact ⟨Nat.le_refl i, by simp, by simpa using hE⟩
          · obtain ⟨ha, hb, hc2⟩ := ih (i + 1) x hxtl
            refine ⟨by omega, by simp; omega, ?_⟩
            have hxi : x.1 - i = (x.1 - (i + 1)) + 1 := by omega
            rw [hxi]
            simpa using hc2

/-- The component indices in the hits list are strictly increasing. -/
theorem hitsFrom_pairwise (pc : Nat) :
    ∀ (comps : List EqualityPredictorComponent) (i : Nat),
      (hitsFrom pc comps i).Pairwise (fun a b => a.1 < b.1) := by
  intro comps
  induction comps with
  | nil => intro i; simp [hitsFrom]
  | cons c rest ih =>
      intro i
      cases hE : c.getEntry pc with
      | none => rw [hitsFrom, hE]; exact ih (i + 1)
      | some e =>
          rw [hitsFrom, hE]
          refine List.pairwise_cons.mpr ⟨?_, ih (i + 1)⟩
          intro y hy
          have := (hitsFrom_mem pc rest (i + 1) y hy).1
          simpa using by omega

/-- `selectFold` over a concatenation. -/
theorem selectFold_append (pd : PredictionData) :
    ∀ l1 l2 : List (Nat × EqualityPredictorEntry),
      selectFold pd (l1 ++ l2) = selectFold (selectFold pd l1) l2 := by
  suffices H : ∀ (l1 : List (Nat × EqualityPredictorEntry)) (pd : PredictionData)
      (l2 : List (Nat × EqualityPredictorEntry)),
      selectFold pd (l1 ++ l2) = selectFold (selectFold pd l1) l2 from
    fun l1 l2 => H l1 pd l2
  intro l1
  induction l1 with
  | nil => intro pd l2; rfl
  | cons a tl ih =>
      intro pd l2
      cases a with
      | mk i e => simp only [List.cons_append, selectFold]; exact ih _ l2

/-- `find?` only depends on the predicate's values on the list. -/
theorem find?_congr_mem {α : Type} (p q : α → Bool) :
    ∀ l : List α, (∀ a ∈ l, p a = q a) → l.find? p = l.find? q := by
  intro l
  induction l with
  | nil => intro _; rfl
  | cons a tl ih =>
      intro hpq
      have ha : p a = q a := hpq a (by simp)
      by_cases hpa : p a = true
      · rw [List.find?_cons_of_pos tl hpa, List.find?_cons_of_pos tl (by rw [← ha]; exact hpa)]
      · have hpa' : p a = false := by simpa using hpa
        rw [List.find?_cons_of_neg tl (by simp [hpa']),
          List.find?_cons_of_neg tl (by simp [← ha, hpa'])]
        exact ih fun b hb => hpq b (by simp [hb])

/-- The running-winner fold of the code computes exactly the specification's
selection: the primary is the last hit whose confidence is `≥` that of every
earlier hit (and its confidence bounds all hits), and the alt is the selection
among the hits strictly before the primary. -/
theorem selectFold_spec : ∀ l : List (Nat × EqualityPredictorEntry),
    l.Pairwise (fun a b => a.1 < b.1) →
    (l = [] ∧ selectFold initPD l = initPD ∧ specPrimary l = none ∧ specAlt l = none) ∨
    (∃ p, specPrimary l = some p ∧ p ∈ l ∧
      (selectFold initPD l).primary = some p.2 ∧
      (selectFold initPD l).primary_index = p.1 ∧
      (selectFold initPD l).alt = (specAlt l).map (fun a => a.2) ∧
      (∀ a, specAlt l = some a →
        (selectFold initPD l).alt_index = a.1 ∧ a ∈ l ∧ a.1 < p.1) ∧
      (∀ y ∈ l, confOf y ≤ confOf p)) := by
  intro l
  induction l using List.reverseRecOn with
  | nil => intro _; left; exact ⟨rfl, rfl, rfl, rfl⟩
  | append_singleton l x ih =>
      intro hl
      obtain ⟨xi, xe⟩ := x
      have hl' : l.Pairwise (fun a b => a.1 < b.1) := (List.pairwise_append.mp hl).1
      have hkeys : ∀ y ∈ l, y.1 < xi := by
        intro y hy
        exact (List.pairwise_append.mp hl).2.2 y hy (xi, xe) (by simp)
      have hrev : (l ++ [(xi, xe)]).reverse = (xi, xe) :: l.reverse := by simp
      rcases ih hl' with ⟨hlnil, hfold0, hsp0, hsa0⟩ | ⟨p, hsp, hpm, h1, h2, h3, h4, h5⟩
      · -- previously no hits: the new hit becomes primary, no alt
        subst hlnil
        right
        have hspx : specPrimary ([] ++ [(xi, xe)]) = some (xi, xe) := by
          simp only [specPrimary, List.nil_append, List.reverse_cons, List.reverse_nil,
            List.nil_append]
          exact List.find?_cons_of_pos _ (by simp)
        refine ⟨(xi, xe), hspx, by simp, rfl, rfl, ?_, ?_, ?_⟩
        · simp only [specAlt, hspx]
          have hf : (List.filter (fun y => decide (y.1 < xi)) ([] ++ [(xi, xe)])) = [] := by
            simp
          rw [hf]
          rfl
        · intro a ha
          simp only [specAlt, hspx] at ha
          simp [specPrimary] at ha
        · intro y hy
          simp at hy
          subst hy
          exact Nat.le_refl _
      · have hpx1 : p.1 < xi := hkeys p hpm
        by_cases hc : confOf p ≤ confOf (xi, xe)
        · -- the new hit takes over as primary; the old primary becomes alt
          have hPxtrue : ((l ++ [(xi, xe)]).all fun z =>
              decide (z.1 < (xi, xe).1 → confOf z ≤ confOf (xi, xe))) = true := by
            simp only [List.all_append, Bool.and_eq_true, List.all_eq_true,
              decide_eq_true_eq]
            constructor
            · intro z hz _
              exact le_trans (h5 z hz) hc
            · intro z hz
              simp only [List.mem_singleton] at hz
              subst hz
              simp
          have hspx : specPrimary (l ++ [(xi, xe)]) = some (xi, xe) := by
            simp only [specPrimary]
            rw [hrev]
            exact List.find?_cons_of_pos _ hPxtrue
          have hstep : selectFold initPD (l ++ [(xi, xe)]) =
              ⟨some xe, xi, (selectFold initPD l).primary,
                (selectFold initPD l).primary_index⟩ := by
            rw [selectFold_append]
            simp only [selectFold, selectStep, h1, Option.isNone_some,
              Option.getD_some, Bool.false_or]
            rw [if_pos (show decide (xe.getConfidence.toNat ≥
              p.2.getConfidence.toNat) = true from decide_eq_true hc)]
          have hfilter : ((l ++ [(xi, xe)]).filter fun y =>
              decide (y.1 < (xi, xe).1)) = l := by
            rw [List.filter_append]
            have h1f : (l.filter fun y => decide (y.1 < (xi, xe).1)) = l :=
              List.filter_eq_self.mpr fun a ha => decide_eq_true (hkeys a ha)
            have h2f : ([(xi, xe)].filter fun y => decide (y.1 < (xi, xe).1)) = [] := by
              simp
            rw [h1f, h2f, List.append_nil]
          have hsax : specAlt (l ++ [(xi, xe)]) = specPrimary l := by
            simp only [specAlt, hspx, hfilter]
          right
          refine ⟨(xi, xe), hspx, by simp, ?_, ?_, ?_, ?_, ?_⟩
          · rw [hstep]
          · rw [hstep]
          · rw [hstep, hsax, hsp, h1]
            rfl
          · intro a ha
            rw [hsax, hsp] at ha
            obtain rfl : p = a := Option.some.inj ha
            refine ⟨?_, List.mem_append_left _ hpm, hpx1⟩
            rw [hstep]
            exact h2
          · intro y hy
            rcases List.mem_append.mp hy with hyl | hyx
            · exact le_trans (h5 y hyl) hc
            · simp at hyx
              subst hyx
              exact Nat.le_refl _
        · -- the old primary stays; the new hit is ignored
          have hPxfalse : ((l ++ [(xi, xe)]).all fun z =>
              decide (z.1 < (xi, xe).1 → confOf z ≤ confOf (xi, xe))) = false := by
            apply List.all_eq_false.mpr
            refine ⟨p, List.mem_append_left _ hpm, ?_⟩
            simp only [decide_eq_true_eq]
            intro himp
            exact hc (himp hpx1)
          have hspx : specPrimary (l ++ [(xi, xe)]) = specPrimary l := by
            simp only [specPrimary]
            rw [hrev, List.find?_cons_of_neg _ (by
              simp only [hPxfalse]
              exact Bool.false_ne_true)]
            apply find?_congr_mem
            intro a ha
            have hal : a ∈ l := List.mem_reverse.mp ha
            rw [List.all_append]
            have hxa : ([(xi, xe)].all fun z => decide (z.1 < a.1 → confOf z ≤ confOf a))
                = true := by
              simp only [List.all_cons, List.all_nil, Bool.and_true, decide_eq_true_eq]
              intro hlt
              have := hkeys a hal
              omega
            rw [hxa, Bool.and_true]
          have hstep : selectFold initPD (l ++ [(xi, xe)]) = selectFold initPD l := by
            rw [selectFold_append]
            simp only [selectFold, selectStep, h1, Option.isNone_some,
              Option.getD_some, Bool.false_or]
            rw [if_neg (show ¬ (decide (xe.getConfidence.toNat ≥
              p.2.getConfidence.toNat) = true) from by
                simp only [decide_eq_true_eq]
                exact hc)]
          have hsax : specAlt (l ++ [(xi, xe)]) = specAlt l := by
            simp only [specAlt, hspx, hsp]
            congr 1
            rw [List.filter_append]
            have h2f : ([(xi, xe)].filter fun y => decide (y.1 < p.1)) = [] := by
              simp
              omega
            rw [h2f, List.append_nil]
          right
          refine ⟨p, by rw [hspx]; exact hsp, List.mem_append_left _ hpm, ?_, ?_, ?_, ?_, ?_⟩
          · rw [hstep]
            exact h1
          · rw [hstep]
            exact h2
          · rw [hstep, hsax]
            exact h3
          · intro a ha
            rw [hsax] at ha
            obtain ⟨hia, hma, hlt⟩ := h4 a ha
            exact ⟨by rw [hstep]; exact hia, List.mem_append_left _ hma, hlt⟩
          · intro y hy
            rcases List.mem_append.mp hy with hyl | hyx
            · exact h5 y hyl
            · simp at hyx
              subst hyx
              omega

/-- **C3.**  `getPredictingEntries` realizes the specification's selection rule:
the primary is the last (highest component index) tag-hitting entry whose
confidence is `≥` that of every earlier hit (ties resolve toward the later
component), the alt is the entry that was primary at the moment the primary was
last overwritten (the same selection among the hits strictly before the
primary), and with no tag hit `predict` returns `(low, false)`. -/
theorem getPredictingEntries_spec (ep : EqualityPredictor) (pc : Nat) :
    (ep.getPredictingEntries pc).primary =
      (specPrimary (ep.hits pc)).map (fun p => p.2) ∧
    (∀ p, specPrimary (ep.hits pc) = some p →
      (ep.getPredictingEntries pc).primary_index = p.1) ∧
    (ep.getPredictingEntries pc).alt = (specAlt (ep.hits pc)).map (fun a => a.2) ∧
    (∀ a, specAlt (ep.hits pc) = some a →
      (ep.getPredictingEntries pc).alt_index = a.1) ∧
    (ep.hits pc = [] → ep.predict pc = (Confidence.low, false)) := by
  have hb : ep.getPredictingEntries pc = selectFold initPD (ep.hits pc) :=
    selectLoop_eq_selectFold pc ep.components initPD 0
  rcases selectFold_spec (ep.hits pc) (hitsFrom_pairwise pc ep.components 0) with
    ⟨hnil, hfold, hsp, hsa⟩ | ⟨p, hsp, hpm, h1, h2, h3, h4, h5⟩
  · refine ⟨?_, ?_, ?_, ?_, ?_⟩
    · rw [hb, hfold, hsp]
      rfl
    · intro p hp
      rw [hsp] at hp
      exact absurd hp (by simp)
    · rw [hb, hfold, hsa]
      rfl
    · intro a ha
      rw [hsa] at ha
      exact absurd ha (by simp)
    · intro _
      have hpn : (ep.getPredictingEntries pc).primary = none := by
        rw [hb, hfold]
        rfl
      unfold EqualityPredictor.predict
      simp only [hpn]
  · refine ⟨?_, ?_, ?_, ?_, ?_⟩
    · rw [hb, h1, hsp]
      rfl
    · intro q hq
      rw [hsp] at hq
      obtain rfl : p = q := Option.some.inj hq
      rw [hb]
      exact h2
    · rw [hb]
      exact h3
    · intro a ha
      rw [hb]
      exact (h4 a ha).1
    · intro hhits
      rw [hhits] at hpm
      exact absurd hpm (List.not_mem_nil p)

/-- Witness for `getPredictingEntries_spec`: a single tagged component misses
`pc = 2`, so the hit list is empty and `predict` returns `(low, false)`. -/
theorem getPredictingEntries_spec_witness :
    c3WitnessEp.hits 2 = [] ∧
    c3WitnessEp.predict 2 = (Confidence.low, false) :=
  ⟨by decide, (getPredictingEntries_spec c3WitnessEp 2).2.2.2.2 (by decide)⟩

/-- **C9.**  `ValuePredictor::onValueCommit(pc, val)` first calls
`ep.onValueCommit` with `wasEqual` computed against the value stored in the
LCVT *before* the update (which reads 0 when `pc` has no entry), and only then
overwrites the LCVT, so that afterwards `lcvt.lookup(pc)` returns `val`. -/
theorem vp_onValueCommit_order (vp : ValuePredictor) (pc val : Nat)
    (rands : List Nat) (vp' : ValuePredictor)
    (hok : vp.onValueCommit pc val rands = .ok vp') :
    vp'.lcvt.lookup pc = val ∧
    vp.ep.onValueCommit pc (val == vp.lcvt.lookup pc) rands = .ok vp'.ep ∧
    ((vp.lcvt pc).isNone →
      vp.ep.onValueCommit pc (val == 0) rands = .ok vp'.ep) := by
  unfold ValuePredictor.onValueCommit at hok
  cases hE : vp.ep.onValueCommit pc (val == vp.lcvt.lookup pc) rands with
  | error e =>
      rw [hE] at hok
      exact absurd (show Except.error e = Except.ok vp' from hok)
        (by intro h; cases h)
  | ok ep' =>
      rw [hE] at hok
      have h2 : Except.ok (⟨vp.lcvt.update pc val, ep'⟩ : ValuePredictor) =
          .ok vp' := hok
      have h3 : (⟨vp.lcvt.update pc val, ep'⟩ : ValuePredictor) = vp' :=
        Except.ok.inj h2
      refine ⟨?_, ?_, ?_⟩
      · rw [← h3]
        simp [LastCommittedValueTable.lookup, LastCommittedValueTable.update]
      · rw [← h3]
      · intro h0
        have hz : vp.lcvt.lookup pc = 0 := by
          unfold LastCommittedValueTable.lookup
          rw [Option.isNone_iff_eq_none.mp h0]
          rfl
        rw [← hz, ← h3]
        exact hE

/-- Witness for `vp_onValueCommit_order`: committing value 0 at `pc = 0` on an
empty LCVT (so `wasEqual = (0 == 0) = true`) reaches `c9vpRes`, whose LCVT now
stores 0 at `pc = 0`. -/
theorem vp_onValueCommit_order_witness :
    c9vp.onValueCommit 0 0 [] = .ok c9vpRes ∧ c9vpRes.lcvt.lookup 0 = 0 :=
  have h : c9vp.onValueCommit 0 0 [] = .ok c9vpRes := by rfl
  ⟨h, (vp_onValueCommit_order c9vp 0 0 [] c9vpRes h).1⟩


/-- Writing a slot of component `i` leaves every other component unchanged. -/
theorem getD_setCompEntry_ne (comps : List EqualityPredictorComponent)
    (i pc : Nat) (e : EqualityPredictorEntry) (m : Nat) (h : i ≠ m) :
    (setCompEntry comps i pc e).getD m emptyComponent =
      comps.getD m emptyComponent := by
  unfold setCompEntry
  rw [List.getD_eq_getElem?_getD, List.getElem?_set_ne h, ← List.getD_eq_getElem?_getD]

/-- Reading back the component whose slot was just written. -/
theorem getD_setCompEntry_self (comps : List EqualityPredictorComponent)
    (i pc : Nat) (e : EqualityPredictorEntry) (hi : i < comps.length) :
    (setCompEntry comps i pc e).getD i emptyComponent =
      (comps.getD i emptyComponent).setEntryAt pc e := by
  unfold setCompEntry
  rw [List.getD_eq_getElem?_getD, List.getElem?_set_self hi]
  rfl

/-- `List.set` away from the read position. -/
theorem getD_set_ne {α : Type} (l : List α) (r m : Nat) (a d : α) (h : r ≠ m) :
    (l.set r a).getD m d = l.getD m d := by
  rw [List.getD_eq_getElem?_getD, List.getElem?_set_ne h, ← List.getD_eq_getElem?_getD]

/-- `setCompEntry` preserves the number of components. -/
theorem length_setCompEntry (comps : List EqualityPredictorComponent)
    (i pc : Nat) (e : EqualityPredictorEntry) :
    (setCompEntry comps i pc e).length = comps.length :=
  List.length_set comps i _

/-- The computed table index is always below `2 ^ index_size`. -/
theorem getIndex_lt (t : PathTracker) (pc : Nat) :
    t.getIndex pc < 2 ^ t.index_size := by
  unfold PathTracker.getIndex
  rw [Nat.one_shiftLeft, Nat.and_pow_two_sub_one_eq_mod]
  exact Nat.mod_lt _ (Nat.two_pow_pos _)

/-- A confidence level differs from `high` exactly when its integer value is
below `high`'s. -/
theorem conf_ne_high_iff (c : Confidence) :
    c ≠ Confidence.high ↔ c.toNat < 2 := by
  cases c <;> decide

/-- `update` never changes the stored tag. -/
theorem update_tag (e : EqualityPredictorEntry) (o : Bool) :
    (e.update o).tag = e.tag := by
  unfold EqualityPredictorEntry.update
  repeat' split
  all_goals rfl

/-- `decay` never changes the stored tag. -/
theorem decay_tag (e : EqualityPredictorEntry) : e.decay.tag = e.tag := rfl

/-- Re-reading the slot for `pc` after writing an entry carrying the matching
tag returns exactly the written entry. -/
theorem getEntry_setEntryAt (c : EqualityPredictorComponent) (pc : Nat)
    (e : EqualityPredictorEntry) (hidx : c.path.getIndex pc < c.components.length)
    (htag : e.tag = c.path.getTag pc) :
    (c.setEntryAt pc e).getEntry pc = some e := by
  unfold EqualityPredictorComponent.setEntryAt EqualityPredictorComponent.getEntry
    EqualityPredictorComponent.getEntryConflict
  simp only []
  rw [List.getD_eq_getElem?_getD, List.getElem?_set_self hidx]
  simp only [Option.getD_some]
  rw [if_pos htag]

/-- A fold whose step touches only components other than `i` preserves the
component at `i`. -/
theorem foldl_getD_pres (i : Nat)
    (f : List EqualityPredictorComponent → Nat → List EqualityPredictorComponent)
    (hf : ∀ cs j, j ≠ i → (f cs j).getD i emptyComponent = cs.getD i emptyComponent) :
    ∀ (l : List Nat) (c2 : List EqualityPredictorComponent), (∀ j ∈ l, j ≠ i) →
      (l.foldl f c2).getD i emptyComponent = c2.getD i emptyComponent := by
  intro l
  induction l with
  | nil => intro c2 _; rfl
  | cons j rest ih =>
      intro c2 hl
      rw [List.foldl_cons, ih (f c2 j) (fun m hm => hl m (by simp [hm]))]
      exact hf c2 j (hl j (by simp))

/-- Unfolding one step of `commitWalk` when the step succeeds. -/
theorem commitWalk_cons (pd : PredictionData) (pc : Nat) (w : Bool)
    (comps : List EqualityPredictorComponent) (L j : Nat) (rest : List Nat)
    (s : List EqualityPredictorComponent × Nat)
    (h : commitStep pd pc w comps L j = .ok s) :
    commitWalk pd pc w comps L (j :: rest) = commitWalk pd pc w s.1 s.2 rest := by
  simp only [commitWalk]
  rw [h]
  rfl

/-- `commitWalk` over a concatenation is the composition of the two walks. -/
theorem commitWalk_append (pd : PredictionData) (pc : Nat) (w : Bool) :
    ∀ (js1 js2 : List Nat) (comps : List EqualityPredictorComponent) (L : Nat),
      commitWalk pd pc w comps L (js1 ++ js2) =
        (commitWalk pd pc w comps L js1).bind
          (fun st => commitWalk pd pc w st.1 st.2 js2) := by
  intro js1
  induction js1 with
  | nil => intro js2 comps L; rfl
  | cons j rest ih =>
      intro js2 comps L
      rw [List.cons_append]
      cases hE : commitStep pd pc w comps L j with
      | error e =>
          simp only [commitWalk]
          rw [hE]
          rfl
      | ok s =>
          rw [commitWalk_cons pd pc w comps L j (rest ++ js2) s hE, ih,
            commitWalk_cons pd pc w comps L j rest s hE]

/-- The walk over the components strictly before the primary never fails,
preserves every component at or beyond the primary index, and — when the
primary entry currently reads high confidence — changes nothing at all (the
only candidate write, at the alt component, is guarded by the re-read primary
confidence being below high). -/
theorem commitWalk_before_primary (pd : PredictionData) (pc : Nat) (w : Bool)
    (comps0 : List EqualityPredictorComponent) (pe : EqualityPredictorEntry)
    (hEp : entryAt comps0 pd.primary_index pc = some pe) :
    ∀ (js : List Nat) (comps : List EqualityPredictorComponent) (L : Nat),
      (∀ j ∈ js, j < pd.primary_index) →
      (∀ m, pd.primary_index ≤ m →
        comps.getD m emptyComponent = comps0.getD m emptyComponent) →
      (pe.getConfidence = Confidence.high → comps = comps0) →
      comps.length = comps0.length →
      ∃ st, commitWalk pd pc w comps L js = .ok st ∧
        (∀ m, pd.primary_index ≤ m →
          st.1.getD m emptyComponent = comps0.getD m emptyComponent) ∧
        (pe.getConfidence = Confidence.high → st.1 = comps0) ∧
        st.1.length = comps0.length := by
  intro js
  induction js with
  | nil =>
      intro comps L _ hP1 hP2 hlen
      exact ⟨(comps, L), rfl, hP1, hP2, hlen⟩
  | cons j rest ih =>
      intro comps L hjs hP1 hP2 hlen
      have hj : j < pd.primary_index := hjs j (by simp)
      have hstep : ∃ s, commitStep pd pc w comps L j = .ok s ∧
          (∀ m, pd.primary_index ≤ m →
            s.1.getD m emptyComponent = comps.getD m emptyComponent) ∧
          (pe.getConfidence = Confidence.high → s.1 = comps) ∧
          s.1.length = comps.length := by
        cases hE : entryAt comps j pc with
        | none =>
            refine ⟨(comps, L), ?_, fun m _ => rfl, fun _ => rfl, rfl⟩
            simp only [commitStep, hE]
        | some e =>
            have hred : commitStep pd pc w comps L j =
                if pd.alt.isSome && (j == pd.alt_index) then
                  (if ((entryAt comps pd.primary_index pc).getD
                        (pd.primary.getD (EqualityPredictorEntry.init 0))).getConfidence
                      != Confidence.high then
                    .ok (setCompEntry comps j pc (e.update w), j)
                  else .ok (comps, j))
                else .ok (comps, j) := by
              simp only [commitStep, hE]
              rw [if_neg (by omega), if_neg (by omega)]
            rw [hred]
            by_cases hA : (pd.alt.isSome && (j == pd.alt_index)) = true
            · rw [if_pos hA]
              by_cases hPn : (((entryAt comps pd.primary_index pc).getD
                    (pd.primary.getD (EqualityPredictorEntry.init 0))).getConfidence
                  != Confidence.high) = true
              · rw [if_pos hPn]
                refine ⟨(setCompEntry comps j pc (e.update w), j), rfl, ?_, ?_,
                  length_setCompEntry comps j pc (e.update w)⟩
                · intro m hm
                  exact getD_setCompEntry_ne comps j pc (e.update w) m (by omega)
                · intro hh
                  exfalso
                  have hPm : comps.getD pd.primary_index emptyComponent =
                      comps0.getD pd.primary_index emptyComponent :=
                    hP1 _ (Nat.le_refl _)
                  have hEc : entryAt comps pd.primary_index pc = some pe := by
                    unfold entryAt at hEp ⊢
                    rw [hPm]
                    exact hEp
                  rw [hEc, Option.getD_some, hh] at hPn
                  exact absurd hPn (by decide)
              · rw [if_neg hPn]
                exact ⟨(comps, j), rfl, fun m _ => rfl, fun _ => rfl, rfl⟩
            · rw [if_neg hA]
              exact ⟨(comps, j), rfl, fun m _ => rfl, fun _ => rfl, rfl⟩
      obtain ⟨s, hs, hs1, hs2, hs3⟩ := hstep
      obtain ⟨st, hw1, hw2, hw3, hw4⟩ := ih s.1 s.2 (fun m hm => hjs m (by simp [hm]))
        (fun m hm => (hs1 m hm).trans (hP1 m hm))
        (fun hh => (hs2 hh).trans (hP2 hh)) (hs3.trans hlen)
      exact ⟨st, (commitWalk_cons pd pc w comps L j rest s hs).trans hw1, hw2, hw3, hw4⟩

/-- The walk over the components strictly beyond the primary never fails,
preserves the primary's component, and keeps `longest_hitting_index` at or
beyond the primary index. -/
theorem commitWalk_after_primary (pd : PredictionData) (pc : Nat) (w : Bool) :
    ∀ (js : List Nat) (comps : List EqualityPredictorComponent) (L : Nat),
      (∀ j ∈ js, pd.primary_index < j) →
      pd.primary_index ≤ L →
      ∃ st, commitWalk pd pc w comps L js = .ok st ∧
        st.1.getD pd.primary_index emptyComponent =
          comps.getD pd.primary_index emptyComponent ∧
        pd.primary_index ≤ st.2 ∧
        st.1.length = comps.length := by
  intro js
  induction js with
  | nil => intro comps L _ hL; exact ⟨(comps, L), rfl, rfl, hL, rfl⟩
  | cons j rest ih =>
      intro comps L hjs hL
      have hj : pd.primary_index < j := hjs j (by simp)
      have hstep : ∃ s, commitStep pd pc w comps L j = .ok s ∧
          s.1.getD pd.primary_index emptyComponent =
            comps.getD pd.primary_index emptyComponent ∧
          pd.primary_index ≤ s.2 ∧ s.1.length = comps.length := by
        cases hE : entryAt comps j pc with
        | none =>
            refine ⟨(comps, L), ?_, rfl, hL, rfl⟩
            simp only [commitStep, hE]
        | some e =>
            refine ⟨(setCompEntry comps j pc (e.update w), j), ?_, ?_, by omega,
              length_setCompEntry comps j pc (e.update w)⟩
            · simp only [commitStep, hE]
              rw [if_pos hj]
            · exact getD_setCompEntry_ne comps j pc (e.update w) pd.primary_index (by omega)
      obtain ⟨s, hs, hs1, hs2, hs3⟩ := hstep
      obtain ⟨st, hw1, hw2, hw3, hw4⟩ := ih s.1 s.2 (fun m hm => hjs m (by simp [hm])) hs2
      exact ⟨st, (commitWalk_cons pd pc w comps L j rest s hs).trans hw1,
        hw2.trans hs1, hw3, hw4.trans hs3⟩

/-- The commit step at the primary component itself, when the assertion
`i == 0 || pd.alt.has_value()` holds: the primary slot is always rewritten,
with `update(wasEqual)` unless the update is suppressed — primary at a tagged
component (`i > 0`), primary confidence high, and the re-read alt entry also
high-confidence and agreeing with the outcome — in which case it decays. -/
theorem commitStep_at_primary (pd : PredictionData) (pc : Nat) (w : Bool)
    (comps : List EqualityPredictorComponent) (L : Nat)
    (pe : EqualityPredictorEntry)
    (hE : entryAt comps pd.primary_index pc = some pe)
    (hA : pd.primary_index = 0 ∨ pd.alt.isSome = true) :
    ∃ e', commitStep pd pc w comps L pd.primary_index =
        .ok (setCompEntry comps pd.primary_index pc e', pd.primary_index) ∧
      ((pd.primary_index = 0 ∨ pe.getConfidence ≠ Confidence.high ∨
          (pd.alt.isSome = true ∧
            (((entryAt comps pd.alt_index pc).getD
                (pd.alt.getD (EqualityPredictorEntry.init 0))).getConfidence ≠
                  Confidence.high ∨
             ((entryAt comps pd.alt_index pc).getD
                (pd.alt.getD (EqualityPredictorEntry.init 0))).getDirection ≠ w))) →
        e' = pe.update w) ∧
      ((pd.primary_index ≠ 0 ∧ pe.getConfidence = Confidence.high ∧
          pd.alt.isSome = true ∧
          ((entryAt comps pd.alt_index pc).getD
              (pd.alt.getD (EqualityPredictorEntry.init 0))).getConfidence =
                Confidence.high ∧
          ((entryAt comps pd.alt_index pc).getD
              (pd.alt.getD (EqualityPredictorEntry.init 0))).getDirection = w) →
        e' = pe.decay) := by
  have hred : commitStep pd pc w comps L pd.primary_index =
      if (pd.primary_index == 0) || (pe.getConfidence != Confidence.high) ||
          (pd.alt.isSome && decide ((((entryAt comps pd.alt_index pc).getD
            (pd.alt.getD (EqualityPredictorEntry.init 0))).getConfidence).toNat <
              Confidence.high.toNat)) ||
          (pd.alt.isSome && ((((entryAt comps pd.alt_index pc).getD
            (pd.alt.getD (EqualityPredictorEntry.init 0))).getDirection) != w)) then
        .ok (setCompEntry comps pd.primary_index pc (pe.update w), pd.primary_index)
      else if (decide (pd.primary_index > 0)) &&
          (pe.getConfidence == Confidence.high) &&
          (((((entryAt comps pd.alt_index pc).getD
            (pd.alt.getD (EqualityPredictorEntry.init 0))).getConfidence) ==
              Confidence.high) &&
           ((((entryAt comps pd.alt_index pc).getD
            (pd.alt.getD (EqualityPredictorEntry.init 0))).getDirection) == w)) then
        .ok (setCompEntry comps pd.primary_index pc pe.decay, pd.primary_index)
      else .ok (comps, pd.primary_index) := by
    simp only [commitStep, hE]
    rw [if_neg (Nat.lt_irrefl pd.primary_index), if_pos True.intro, if_neg (not_not_intro hA)]
  rw [hred]
  by_cases hBIG : ((pd.primary_index == 0) || (pe.getConfidence != Confidence.high) ||
      (pd.alt.isSome && decide ((((entryAt comps pd.alt_index pc).getD
        (pd.alt.getD (EqualityPredictorEntry.init 0))).getConfidence).toNat <
          Confidence.high.toNat)) ||
      (pd.alt.isSome && ((((entryAt comps pd.alt_index pc).getD
        (pd.alt.getD (EqualityPredictorEntry.init 0))).getDirection) != w))) = true
  · rw [if_pos hBIG]
    refine ⟨pe.update w, rfl, fun _ => rfl, ?_⟩
    rintro ⟨h0, hpeh, hsome, hAh, hAd⟩
    exfalso
    simp only [Bool.or_eq_true, Bool.and_eq_true, beq_iff_eq, bne_iff_ne,
      decide_eq_true_eq] at hBIG
    rcases hBIG with ((h | h) | ⟨-, h⟩) | ⟨-, h⟩
    · exact h0 h
    · exact h hpeh
    · rw [hAh] at h
      exact absurd h (by decide)
    · exact h hAd
  · have hBIG' := hBIG
    simp only [Bool.or_eq_true, Bool.and_eq_true, beq_iff_eq, bne_iff_ne,
      decide_eq_true_eq] at hBIG'
    push_neg at hBIG'
    obtain ⟨⟨⟨h0, hpeh⟩, h3⟩, h4⟩ := hBIG'
    have hsome : pd.alt.isSome = true := by
      rcases hA with h | h
      · exact absurd h h0
      · exact h
    have hAconf : ((entryAt comps pd.alt_index pc).getD
        (pd.alt.getD (EqualityPredictorEntry.init 0))).getConfidence =
          Confidence.high := by
      have hle := h3 hsome
      cases hcc : ((entryAt comps pd.alt_index pc).getD
          (pd.alt.getD (EqualityPredictorEntry.init 0))).getConfidence with
      | low => rw [hcc] at hle; exact absurd hle (by decide)
      | medium => rw [hcc] at hle; exact absurd hle (by decide)
      | high => rfl
    rw [if_neg hBIG]
    have hcond : ((decide (pd.primary_index > 0)) &&
        (pe.getConfidence == Confidence.high) &&
        (((((entryAt comps pd.alt_index pc).getD
          (pd.alt.getD (EqualityPredictorEntry.init 0))).getConfidence) ==
            Confidence.high) &&
         ((((entryAt comps pd.alt_index pc).getD
          (pd.alt.getD (EqualityPredictorEntry.init 0))).getDirection) == w))) = true := by
      simp only [Bool.and_eq_true, beq_iff_eq, decide_eq_true_eq]
      exact ⟨⟨by omega, hpeh⟩, hAconf, h4 hsome⟩
    rw [if_pos hcond]
    refine ⟨pe.decay, rfl, ?_, fun _ => rfl⟩
    rintro (h | h | ⟨hs, hor⟩)
    · exact absurd h h0
    · exact absurd hpeh h
    · rcases hor with hns | hnd
      · exact absurd hAconf hns
      · exact absurd (h4 hsome) hnd

/-- `onValueCommit` run to completion from a successful walk: the call succeeds,
and the allocation/decay phase — which only ever touches components strictly
beyond `longest_hitting_index` — leaves every component at or below the final
`longest_hitting_index` exactly as the walk left it. -/
theorem onValueCommit_slot (ep : EqualityPredictor) (pc : Nat) (w : Bool)
    (rands : List Nat) (st : List EqualityPredictorComponent × Nat) (i : Nat)
    (hw : commitWalk (ep.getPredictingEntries pc) pc w ep.components 0
        (List.range ep.components.length) = .ok st)
    (hi : i ≤ st.2) :
    ∃ ep', ep.onValueCommit pc w rands = .ok ep' ∧
      ep'.components.getD i emptyComponent = st.1.getD i emptyComponent := by
  have hval : ep.onValueCommit pc w rands =
      if (((ep.getPredictingEntries pc).primary.isSome &&
          ((ep.getPredictingEntries pc).primary.getD
            (EqualityPredictorEntry.init 0)).getDirection) != w) then
        .ok { ep with components :=
          (let s := st.2 + 1;
           let scan := (List.range' s (st.1.length - s)).find? fun j =>
             ((st.1.getD j emptyComponent).getEntryConflict pc).getConfidence !=
               Confidence.high;
           let r := match scan with | some r => r | none => st.1.length;
           let comps2 := match scan with
             | some r2 => st.1.set r2 ((st.1.getD r2 emptyComponent).allocate pc w)
             | none => st.1;
           (List.range' s (r - s)).foldl
             (fun cs j => if (rands.getD (j - s) 1) % 4 = 0 then decayConflict cs j pc
               else cs)
             comps2) }
      else .ok { ep with components := st.1 } := by
    simp only [EqualityPredictor.onValueCommit]
    rw [hw]
    rfl
  rw [hval]
  have hf : ∀ cs j, j ≠ i →
      ((if (rands.getD (j - (st.2 + 1)) 1) % 4 = 0 then decayConflict cs j pc
        else cs) : List EqualityPredictorComponent).getD i emptyComponent =
        cs.getD i emptyComponent := by
    intro cs j hj
    by_cases hc : (rands.getD (j - (st.2 + 1)) 1) % 4 = 0
    · rw [if_pos hc]
      exact getD_setCompEntry_ne cs j pc _ i hj
    · rw [if_neg hc]
  by_cases hpred : (((ep.getPredictingEntries pc).primary.isSome &&
      ((ep.getPredictingEntries pc).primary.getD
        (EqualityPredictorEntry.init 0)).getDirection) != w) = true
  · rw [if_pos hpred]
    refine ⟨_, rfl, ?_⟩
    show ((List.range' (st.2 + 1)
        ((match (List.range' (st.2 + 1) (st.1.length - (st.2 + 1))).find? (fun j =>
            ((st.1.getD j emptyComponent).getEntryConflict pc).getConfidence !=
              Confidence.high) with
          | some r => r
          | none => st.1.length) - (st.2 + 1))).foldl
        (fun cs j => if (rands.getD (j - (st.2 + 1)) 1) % 4 = 0 then decayConflict cs j pc
          else cs)
        (match (List.range' (st.2 + 1) (st.1.length - (st.2 + 1))).find? (fun j =>
            ((st.1.getD j emptyComponent).getEntryConflict pc).getConfidence !=
              Confidence.high) with
          | some r2 => st.1.set r2 ((st.1.getD r2 emptyComponent).allocate pc w)
          | none => st.1)).getD i emptyComponent = st.1.getD i emptyComponent
    cases hscan : (List.range' (st.2 + 1) (st.1.length - (st.2 + 1))).find? (fun j =>
        ((st.1.getD j emptyComponent).getEntryConflict pc).getConfidence !=
          Confidence.high) with
    | none =>
        show ((List.range' (st.2 + 1) (st.1.length - (st.2 + 1))).foldl
            (fun cs j => if (rands.getD (j - (st.2 + 1)) 1) % 4 = 0
              then decayConflict cs j pc else cs) st.1).getD i emptyComponent =
          st.1.getD i emptyComponent
        exact foldl_getD_pres i _ hf _ st.1
          (fun j hj => by have := (List.mem_range'_1.mp hj).1; omega)
    | some r2 =>
        show ((List.range' (st.2 + 1) (r2 - (st.2 + 1))).foldl
            (fun cs j => if (rands.getD (j - (st.2 + 1)) 1) % 4 = 0
              then decayConflict cs j pc else cs)
            (st.1.set r2 ((st.1.getD r2 emptyComponent).allocate pc w))).getD i
              emptyComponent = st.1.getD i emptyComponent
        have hr2 : st.2 + 1 ≤ r2 :=
          (List.mem_range'_1.mp (List.mem_of_find?_eq_some hscan)).1
        rw [foldl_getD_pres i _ hf _ _
          (fun j hj => by have := (List.mem_range'_1.mp hj).1; omega)]
        exact getD_set_ne st.1 r2 i _ emptyComponent (by omega)
  · rw [if_neg hpred]
    exact ⟨_, rfl, rfl⟩

/-- **C2 (amended).**  For a commit whose prediction data has a tag-hitting
primary entry `pe` at component `primary_index`, when the assertion
`i == 0 || pd.alt.has_value()` holds, `onValueCommit(pc, wasEqual)` succeeds,
and afterwards the primary's slot reads `pe.update(wasEqual)` if the primary
sits at the base component, or its confidence is below high, or the alt
snapshot exists with confidence below high or a direction different from the
outcome; in the remaining case (tagged primary at high confidence whose alt is
high-confidence and agrees with the outcome) the slot reads `pe.decay()`. -/
theorem onValueCommit_primary_action (ep : EqualityPredictor) (pc : Nat)
    (wasEqual : Bool) (rands : List Nat) (pe : EqualityPredictorEntry)
    (hsz : ∀ c ∈ ep.components, 2 ^ c.path.index_size ≤ c.components.length)
    (hp : (ep.getPredictingEntries pc).primary = some pe)
    (hassert : (ep.getPredictingEntries pc).primary_index = 0 ∨
      (ep.getPredictingEntries pc).alt.isSome = true) :
    ∃ ep', ep.onValueCommit pc wasEqual rands = .ok ep' ∧
      (((ep.getPredictingEntries pc).primary_index = 0 ∨
          pe.getConfidence ≠ Confidence.high ∨
          (∃ ae, (ep.getPredictingEntries pc).alt = some ae ∧
            (ae.getConfidence ≠ Confidence.high ∨ ae.getDirection ≠ wasEqual))) →
        entryAt ep'.components (ep.getPredictingEntries pc).primary_index pc =
          some (pe.update wasEqual)) ∧
      (¬ ((ep.getPredictingEntries pc).primary_index = 0 ∨
          pe.getConfidence ≠ Confidence.high ∨
          (∃ ae, (ep.getPredictingEntries pc).alt = some ae ∧
            (ae.getConfidence ≠ Confidence.high ∨ ae.getDirection ≠ wasEqual))) →
        entryAt ep'.components (ep.getPredictingEntries pc).primary_index pc =
          some pe.decay) := by
  have hb : ep.getPredictingEntries pc = selectFold initPD (ep.hits pc) :=
    selectLoop_eq_selectFold pc ep.components initPD 0
  rcases selectFold_spec (ep.hits pc) (hitsFrom_pairwise pc ep.components 0) with
    ⟨hnil, hfold, hsp, hsa⟩ | ⟨p, hsp, hpm, h1, h2, h3, h4, h5⟩
  · rw [hb, hfold] at hp
    exact absurd hp (by simp [initPD])
  have hpe2 : pe = p.2 := by
    have h1' := h1
    rw [← hb, hp] at h1'
    exact Option.some.inj h1'
  have hI : (ep.getPredictingEntries pc).primary_index = p.1 := by
    rw [hb]
    exact h2
  obtain ⟨hge0, hlt0, hEg⟩ := hitsFrom_mem pc ep.components 0 p hpm
  have hin : (ep.getPredictingEntries pc).primary_index < ep.components.length := by
    rw [hI]
    omega
  have hEi : entryAt ep.components (ep.getPredictingEntries pc).primary_index pc =
      some pe := by
    rw [hI, hpe2]
    unfold entryAt
    simpa using hEg
  have haltFact : ∀ ae, (ep.getPredictingEntries pc).alt = some ae →
      entryAt ep.components (ep.getPredictingEntries pc).alt_index pc = some ae := by
    intro ae hae
    have h3' : (ep.getPredictingEntries pc).alt =
        (specAlt (ep.hits pc)).map (fun a => a.2) := by
      rw [hb]
      exact h3
    rw [hae] at h3'
    cases hsa2 : specAlt (ep.hits pc) with
    | none =>
        rw [hsa2] at h3'
        exact absurd h3' (by simp)
    | some a =>
        rw [hsa2] at h3'
        have hae2 : ae = a.2 := by simpa using h3'
        obtain ⟨hidx2, hamem, haltlt⟩ := h4 a hsa2
        have hAI : (ep.getPredictingEntries pc).alt_index = a.1 := by
          rw [hb]
          exact hidx2
        obtain ⟨-, -, hEa⟩ := hitsFrom_mem pc ep.components 0 a hamem
        rw [hAI, hae2]
        unfold entryAt
        simpa using hEa
  have hsplit : List.range ep.components.length =
      List.range' 0 (ep.getPredictingEntries pc).primary_index ++
        ((ep.getPredictingEntries pc).primary_index ::
          List.range' ((ep.getPredictingEntries pc).primary_index + 1)
            (ep.components.length -
              ((ep.getPredictingEntries pc).primary_index + 1))) := by
    rw [List.range_eq_range']
    have hcons : (ep.getPredictingEntries pc).primary_index ::
        List.range' ((ep.getPredictingEntries pc).primary_index + 1)
          (ep.components.length - ((ep.getPredictingEntries pc).primary_index + 1)) =
        List.range' (ep.getPredictingEntries pc).primary_index
          (ep.components.length - (ep.getPredictingEntries pc).primary_index) := by
      have hstep : ep.components.length - (ep.getPredictingEntries pc).primary_index =
          (ep.components.length - ((ep.getPredictingEntries pc).primary_index + 1)) + 1 := by
        omega
      rw [hstep, List.range'_succ]
    rw [hcons]
    have happ := List.range'_append_1 0 (ep.getPredictingEntries pc).primary_index
      (ep.components.length - (ep.getPredictingEntries pc).primary_index)
    rw [Nat.zero_add] at happ
    rw [happ]
    congr 1
    omega
  obtain ⟨stA, hwA, hA1, hA2, hAlen⟩ :=
    commitWalk_before_primary (ep.getPredictingEntries pc) pc wasEqual
      ep.components pe hEi (List.range' 0 (ep.getPredictingEntries pc).primary_index)
      ep.components 0
      (fun j hj => by have := (List.mem_range'_1.mp hj).2; omega)
      (fun m _ => rfl) (fun _ => rfl) rfl
  have hEA : entryAt stA.1 (ep.getPredictingEntries pc).primary_index pc = some pe := by
    unfold entryAt at hEi ⊢
    rw [hA1 _ (Nat.le_refl _)]
    exact hEi
  obtain ⟨e', hstep, hU, hD⟩ := commitStep_at_primary (ep.getPredictingEntries pc)
    pc wasEqual stA.1 stA.2 pe hEA hassert
  obtain ⟨stC, hwC, hC1, hC2, hClen⟩ :=
    commitWalk_after_primary (ep.getPredictingEntries pc) pc wasEqual
      (List.range' ((ep.getPredictingEntries pc).primary_index + 1)
        (ep.components.length - ((ep.getPredictingEntries pc).primary_index + 1)))
      (setCompEntry stA.1 (ep.getPredictingEntries pc).primary_index pc e')
      (ep.getPredictingEntries pc).primary_index
      (fun j hj => by have := (List.mem_range'_1.mp hj).1; omega)
      (Nat.le_refl _)
  have hwalk : commitWalk (ep.getPredictingEntries pc) pc wasEqual ep.components 0
      (List.range ep.components.length) = .ok stC := by
    rw [hsplit, commitWalk_append, hwA]
    show commitWalk (ep.getPredictingEntries pc) pc wasEqual stA.1 stA.2
        ((ep.getPredictingEntries pc).primary_index ::
          List.range' ((ep.getPredictingEntries pc).primary_index + 1)
            (ep.components.length - ((ep.getPredictingEntries pc).primary_index + 1)))
      = .ok stC
    rw [commitWalk_cons _ _ _ _ _ _ _ _ hstep]
    exact hwC
  obtain ⟨ep', hok, hslot⟩ := onValueCommit_slot ep pc wasEqual rands stC
    (ep.getPredictingEntries pc).primary_index hwalk hC2
  have hcomp : ep'.components.getD (ep.getPredictingEntries pc).primary_index
      emptyComponent =
      (ep.components.getD (ep.getPredictingEntries pc).primary_index
        emptyComponent).setEntryAt pc e' := by
    rw [hslot, hC1, getD_setCompEntry_self stA.1 _ pc e' (by rw [hAlen]; exact hin),
      hA1 _ (Nat.le_refl _)]
  have htag : pe.tag = (ep.components.getD (ep.getPredictingEntries pc).primary_index
      emptyComponent).path.getTag pc := by
    have hEi2 := hEi
    unfold entryAt at hEi2
    simp only [EqualityPredictorComponent.getEntry] at hEi2
    by_cases hcnd : ((ep.components.getD (ep.getPredictingEntries pc).primary_index
        emptyComponent).getEntryConflict pc).tag =
        (ep.components.getD (ep.getPredictingEntries pc).primary_index
          emptyComponent).path.getTag pc
    · rw [if_pos hcnd] at hEi2
      rw [← Option.some.inj hEi2]
      exact hcnd
    · rw [if_neg hcnd] at hEi2
      exact absurd hEi2 (by simp)
  have hidx : (ep.components.getD (ep.getPredictingEntries pc).primary_index
      emptyComponent).path.getIndex pc <
      (ep.components.getD (ep.getPredictingEntries pc).primary_index
        emptyComponent).components.length := by
    have hmem : ep.components.getD (ep.getPredictingEntries pc).primary_index
        emptyComponent ∈ ep.components := by
      rw [List.getD_eq_getElem?_getD, List.getElem?_eq_getElem hin]
      simp only [Option.getD_some]
      exact List.getElem_mem hin
    exact Nat.lt_of_lt_of_le (getIndex_lt _ pc) (hsz _ hmem)
  refine ⟨ep', hok, ?_, ?_⟩
  · intro hCOND
    have he' : e' = pe.update wasEqual := by
      by_cases hph : pe.getConfidence = Confidence.high
      · rcases hCOND with h0 | hky | ⟨ae, hae, hor⟩
        · exact hU (Or.inl h0)
        · exact absurd hph hky
        · have hALTA : (entryAt stA.1 (ep.getPredictingEntries pc).alt_index pc).getD
              ((ep.getPredictingEntries pc).alt.getD (EqualityPredictorEntry.init 0)) =
                ae := by
            rw [hA2 hph, haltFact ae hae]
            rfl
          refine hU (Or.inr (Or.inr ⟨by rw [hae]; rfl, ?_⟩))
          rw [hALTA]
          exact hor
      · exact hU (Or.inr (Or.inl hph))
    unfold entryAt
    rw [hcomp, he']
    exact getEntry_setEntryAt _ pc _ hidx (by rw [update_tag]; exact htag)
  · intro hn
    push_neg at hn
    obtain ⟨h0, hph, hrest⟩ := hn
    have hsome : (ep.getPredictingEntries pc).alt.isSome = true := by
      rcases hassert with h | h
      · exact absurd h h0
      · exact h
    obtain ⟨ae0, hae0⟩ := Option.isSome_iff_exists.mp hsome
    obtain ⟨haeC, haeD⟩ := hrest ae0 hae0
    have hALTA : (entryAt stA.1 (ep.getPredictingEntries pc).alt_index pc).getD
        ((ep.getPredictingEntries pc).alt.getD (EqualityPredictorEntry.init 0)) =
          ae0 := by
      rw [hA2 hph, haltFact ae0 hae0]
      rfl
    have he' : e' = pe.decay :=
      hD ⟨h0, hph, hsome, by rw [hALTA]; exact haeC, by rw [hALTA]; exact haeD⟩
    unfold entryAt
    rw [hcomp, he']
    exact getEntry_setEntryAt _ pc _ hidx (by rw [decay_tag]; exact htag)

/-- Witness for `onValueCommit_primary_action`: the one-component untagged
predictor hits `pc = 0` with the fresh entry as primary at component 0, so
`onValueCommit(0, false)` succeeds and the slot afterwards reads
`update(false)` of that entry. -/
theorem onValueCommit_primary_action_witness :
    ∃ ep', c2WitnessEp.onValueCommit 0 false [] = .ok ep' ∧
      entryAt ep'.components (c2WitnessEp.getPredictingEntries 0).primary_index 0 =
        some ((EqualityPredictorEntry.init 0).update false) := by
  obtain ⟨ep', hok, hU, -⟩ := onValueCommit_primary_action c2WitnessEp 0 false []
    (EqualityPredictorEntry.init 0) (by decide) (by rfl) (Or.inl (by rfl))
  exact ⟨ep', hok, hU (Or.inl (by rfl))⟩
